import Mathlib

/-!
Verification of the survey-assist-themes data layer.

This file gives a shallow embedding of the repository's data-normalisation,
retry and serialisation layer (`src/survey_assist_themes/utils/file_utils.py`,
`src/survey_assist_themes/utils/retry.py`, `src/survey_assist_themes/exceptions.py`
and the orchestrator `cicd/themes-job.py`) and proves the specified properties
about it.

Modelling conventions:
  * Python `str` is Lean `String`; the Python string primitives used by the
    source (`str.strip`, `str.lower`) are modelled over the character list.
  * A CSV / DataFrame cell is `Option String`; `none` models a pandas missing
    value (NaN).  A DataFrame is a header list plus a list of rows.
  * Python exceptions become `Except` results; the distinct message strings of
    the source are reproduced so distinct failure causes stay distinguishable.
  * Regular-expression digits (`\d`) are modelled as ASCII digits.
  * Floating point retry delays are modelled as exact rationals; for the
    delays used by the claims (2.0, 4.0) binary floats are exact, so the
    rational model agrees with the Python floats.
-/

namespace SurveyAssistThemes

/-- Decidable equality of `Except` results, so concrete runs can be checked
by `decide`. -/
instance {ε α : Type} [DecidableEq ε] [DecidableEq α] : DecidableEq (Except ε α) := fun a b =>
  match a, b with
  | .ok x, .ok y =>
    if h : x = y then isTrue (by rw [h]) else isFalse (by intro hh; cases hh; exact h rfl)
  | .error x, .error y =>
    if h : x = y then isTrue (by rw [h]) else isFalse (by intro hh; cases hh; exact h rfl)
  | .ok _, .error _ => isFalse (by intro hh; cases hh)
  | .error _, .ok _ => isFalse (by intro hh; cases hh)

/-! ## Python string primitives -/

/-- Characters removed by Python `str.strip()` (whitespace). -/
def pyIsSpace (c : Char) : Bool :=
  c = ' ' || c = '\t' || c = '\n' || c = '\r' || c = '\x0b' || c = '\x0c'

/-- `str.strip()` on the character list: drop leading and trailing whitespace. -/
def stripL (cs : List Char) : List Char :=
  ((cs.dropWhile pyIsSpace).reverse.dropWhile pyIsSpace).reverse

/-- Python `str.strip()`. -/
def pyStrip (s : String) : String := ⟨stripL s.data⟩

/-- ASCII lowercasing of one character (Python `str.lower` restricted to the
ASCII range, which is all the source compares against). -/
def lowerChar (c : Char) : Char :=
  if 65 ≤ c.toNat ∧ c.toNat ≤ 90 then Char.ofNat (c.toNat + 32) else c

/-- Python `str.lower()`. -/
def pyLower (s : String) : String := ⟨s.data.map lowerChar⟩

/-- Decimal value of a digit string, as computed by Python `int(...)` on a
string of digits (leading zeros allowed). -/
def digitsToNat (ds : List Char) : Nat :=
  ds.foldl (fun a c => a * 10 + (c.toNat - 48)) 0

/-! ## `file_utils._normalise_response_id`

Source: `_ID_PATTERN = re.compile(r"^STP(\d+)(?:-\d+)?$")`; the function strips
the raw id, matches it against the pattern, and returns the first captured
digit group as an `int`, raising `ValueError` otherwise. -/

/-- The match of `^STP(\d+)(?:-\d+)?$` against a full character list,
returning the first captured group on success.  The regex `(\d+)` is greedy,
which over this pattern is equivalent to taking the maximal digit run after
`STP` and requiring the remainder to be empty or `-<digits>`. -/
def idPatternMatch (cs : List Char) : Option (List Char) :=
  match cs with
  | c1 :: c2 :: c3 :: rest =>
    if c1 = 'S' ∧ c2 = 'T' ∧ c3 = 'P' then
      let ds := rest.takeWhile Char.isDigit
      let tail := rest.dropWhile Char.isDigit
      if ds = [] then none
      else
        match tail with
        | [] => some ds
        | c :: ds2 =>
          if c = '-' then
            if ds2 = [] then none
            else if ds2.all Char.isDigit then some ds else none
          else none
    else none
  | _ => none

/-- `file_utils._normalise_response_id`.  `ValueError` is modelled as the
`Except.error` branch carrying the source's message. -/
def _normalise_response_id (raw_id : String) : Except String Int :=
  let t := pyStrip raw_id
  match idPatternMatch t.data with
  | some ds => .ok (digitsToNat ds : Nat)
  | none =>
    .error s!"Unable to normalise response ID \x27{t}\x27. Expected format \x27STP<digits>\x27 or \x27STP<digits>-<digits>\x27."

/-- The specification-side reading of the identifier pattern, written from
the spec's words: after trimming, the identifier is the prefix token `STP`,
a non-empty digit group, and an optional `-<digits>` suffix.  This definition
is for comparison with the source translation `idPatternMatch`. -/
def specIdMatches (s : String) : Prop :=
  ∃ ds sfx, s.data = 'S' :: 'T' :: 'P' :: (ds ++ sfx)
    ∧ ds ≠ [] ∧ (∀ c ∈ ds, c.isDigit = true)
    ∧ (sfx = [] ∨ ∃ ds2, sfx = '-' :: ds2 ∧ ds2 ≠ [] ∧ (∀ c ∈ ds2, c.isDigit = true))

/-! ## DataFrame model -/

/-- One DataFrame cell: `none` is a pandas missing value (NaN). -/
abbrev Cell := Option String

/-- `astype(str)` on one cell: a pandas NaN stringifies to `"nan"`. -/
def cellToStr (c : Cell) : String :=
  match c with
  | none => "nan"
  | some s => s

/-- A pandas DataFrame, abstracted to its header and rows (rows are cell lists
aligned with the header). -/
structure Table where
  columns : List String
  rows : List (List Cell)

/-- Column access `row[col]` through the header (missing column or short row
reads as a missing value; the loader only reads columns it has checked). -/
def getCell (cols : List String) (row : List Cell) (col : String) : Cell :=
  match cols.findIdx? (fun c => c == col) with
  | some i => (row.get? i).getD none
  | none => none

/-- `df.loc[mask]`: select the rows whose mask entry is `true`. -/
def maskSelect : List (List Cell) → List Bool → List (List Cell)
  | [], _ => []
  | _, [] => []
  | x :: xs, b :: bs => if b then x :: maskSelect xs bs else maskSelect xs bs

/-! ## `file_utils._filter_empty_feedback`

The source builds three boolean series (`isna`, blank-after-strip, literal
`"nan"` after strip+lower), combines them, and selects the complement mask
from a copy of the frame. -/

def _filter_empty_feedback (df : Table) (text_col : String) : Table :=
  let cleaned := df
  let feedback := cleaned.rows.map (fun r => getCell cleaned.columns r text_col)
  let is_missing := feedback.map (fun c => c.isNone)
  let as_str := feedback.map (fun c => pyStrip (cellToStr c))
  let is_empty_string := as_str.map (fun s => s == "")
  let is_literal_nan := as_str.map (fun s => pyLower s == "nan")
  let dropRow := List.zipWith (fun a b => a || b) is_missing
      (List.zipWith (fun a b => a || b) is_empty_string is_literal_nan)
  let mask := dropRow.map (fun b => !b)
  { columns := cleaned.columns, rows := maskSelect cleaned.rows mask }

/-- The specification-side keep-condition for a row, written from the spec's
words: the row survives iff its text-column value is present and, after
conversion to string and trimming, is neither empty nor case-insensitively
`"nan"`.  This definition is for comparison with the source translation
`_filter_empty_feedback`. -/
def specKeepRow (cols : List String) (text_col : String) (row : List Cell) : Bool :=
  match getCell cols row text_col with
  | none => false
  | some s => !(pyStrip s == "" || pyLower (pyStrip s) == "nan")

/-! ## `file_utils.load_feedback_csv_from_gcs` -/

/-- The exception types the loader can raise. -/
inductive LoadError where
  | valueError (msg : String)
  | fileNotFoundError (msg : String)
deriving DecidableEq

/-- One row of the ThemeFinder-compatible frame the loader returns. -/
structure CanonicalRecord where
  response_id : Int
  response : String
deriving DecidableEq

/-- Message of the `ValueError` raised for a bad `column_headers` argument. -/
def headersMsg : String :=
  "Exactly two column headers must be provided: an ID column and a feedback column."

/-- Message of the `ValueError` raised when no feedback rows survive. -/
def emptyMsg : String :=
  "No rows with non-empty feedback were found in the CSV. The comments question may have been optional and left blank by all respondents."

/-- `file_utils.load_feedback_csv_from_gcs`.

The GCS blob and the pandas CSV parse are external collaborators; the model
receives `blob` as the parse result of the named object (`none` when
`blob.exists()` is false).  The length check on `column_headers` happens
before any storage access, which the model reflects by deciding the header
shape before consulting `blob`.  The source default for `column_headers` is
`("user", "feedback_comments")`. -/
def load_feedback_csv_from_gcs (bucket_name file_name : String) (blob : Option Table)
    (column_headers : List String) : Except LoadError (List CanonicalRecord) :=
  match column_headers with
  | [id_col, text_col] =>
    match blob with
    | none =>
      .error (.fileNotFoundError
        s!"The file \x27{file_name}\x27 does not exist in bucket \x27{bucket_name}\x27.")
    | some df =>
      let missing := [id_col, text_col].filter (fun c => !(df.columns.contains c))
      if missing.isEmpty then
        let df2 := _filter_empty_feedback df text_col
        if df2.rows.isEmpty then
          .error (.valueError emptyMsg)
        else
          match df2.rows.mapM
              (fun r => _normalise_response_id (cellToStr (getCell df2.columns r id_col))) with
          | .error msg => .error (.valueError msg)
          | .ok ids =>
            .ok (List.zipWith
              (fun i r => { response_id := i, response := cellToStr (getCell df2.columns r text_col) })
              ids df2.rows)
      else
        .error (.valueError ("Missing required columns in CSV: " ++ String.intercalate ", " missing))
  | _ => .error (.valueError headersMsg)

/-! ## `retry.retry_with_backoff` / `retry.async_retry_with_backoff`

Both decorators have the same control flow (the async variant awaits the
wrapped call and the sleep; the sync variant blocks); one model covers both.
The wrapped operation is modelled by the outcome of each attempt
(`op k` is what the `k`-th invocation does, `k` counted from 1); exceptions
not in the configured `exceptions` tuple are the ones with `retryable e =
false` and escape the `except` clause.  The result records the value or the
exception that escapes the wrapper, the number of invocations of the wrapped
operation, and the sequence of delays slept, in order. -/

/-- How a retry-wrapped call can fail: the wrapped operation's own exception
(re-raised after exhaustion, or escaping the `except` clause), or the
`RuntimeError("Retry logic failed unexpectedly")` reachable only when the
attempt loop never runs. -/
inductive RetryFailure (E : Type) where
  | raised (e : E)
  | runtimeError
deriving DecidableEq

/-- The attempt loop: `remaining` attempts left, `attempts` invocations made
so far, current `delay`.  Returns (outcome, total invocations, delays slept
by this and later iterations). -/
def retryAux (op : Nat → Except E T) (retryable : E → Bool) (factor : ℚ) :
    Nat → Nat → ℚ → Except (RetryFailure E) T × Nat × List ℚ
  | 0, attempts, _ => (.error .runtimeError, attempts, [])
  | remaining + 1, attempts, delay =>
    match op (attempts + 1) with
    | .ok v => (.ok v, attempts + 1, [])
    | .error e =>
      if retryable e then
        match remaining with
        | 0 => (.error (.raised e), attempts + 1, [])
        | r + 1 =>
          let rest := retryAux op retryable factor (r + 1) (attempts + 1) (delay * factor)
          (rest.1, rest.2.1, delay :: rest.2.2)
      else (.error (.raised e), attempts + 1, [])

/-- `retry_with_backoff(max_attempts, initial_delay, backoff_factor,
exceptions)` applied to an operation: run the attempt loop from scratch. -/
def retry_with_backoff (max_attempts : Nat) (initial_delay backoff_factor : ℚ)
    (retryable : E → Bool) (op : Nat → Except E T) :
    Except (RetryFailure E) T × Nat × List ℚ :=
  retryAux op retryable backoff_factor max_attempts 0 initial_delay

/-! ## JSON values and `file_utils.themefinder_output_to_serialisable` -/

/-- JSON-safe values.  Numbers are restricted to Python `int` (the repository
serialises tabular/enum/scalar data; float formatting is outside the claims).
Objects are ordered key/value lists, as CPython dicts are insertion-ordered. -/
inductive JVal where
  | null
  | bool (b : Bool)
  | int (n : Int)
  | str (s : String)
  | arr (elems : List JVal)
  | obj (fields : List (String × JVal))

/-- A value of the raw ThemeFinder output dictionary, classified the way
`themefinder_output_to_serialisable` probes it: a pandas `DataFrame`
(abstracted to its `to_dict(orient="records")` view), an enum-like object
(exposes both a `name` and a `value` attribute; abstracted to its `str()`
form), or a plain JSON-safe value, which is neither a `DataFrame` nor
attribute-bearing and falls through unchanged. -/
inductive PyValue where
  | dataFrame (records : List (List (String × JVal)))
  | enumLike (str_form : String)
  | json (v : JVal)

/-- `file_utils.themefinder_output_to_serialisable`: convert each entry of the
output dictionary, preserving key order. -/
def themefinder_output_to_serialisable (data : List (String × PyValue)) :
    List (String × JVal) :=
  data.map (fun kv =>
    match kv.2 with
    | .dataFrame records => (kv.1, JVal.arr (records.map JVal.obj))
    | .enumLike s => (kv.1, JVal.str s)
    | .json v => (kv.1, v))

/-! ## `json.dumps(..., indent=2, ensure_ascii=False)`

Modelled from the Python standard library's encoder as the repository invokes
it: two-space pretty printing, `", "`/`": "` separators collapsed to the
indent style, non-ASCII characters left unescaped, and the standard short
escapes plus `\u00xx` for remaining control characters (lowercase hex). -/

/-- `n` spaces. -/
def spaces : Nat → List Char
  | 0 => []
  | n + 1 => ' ' :: spaces n

/-- The ASCII decimal digit for `n < 10`. -/
def digChar (n : Nat) : Char := Char.ofNat (48 + n)

/-- The lowercase hex digit for `n < 16`. -/
def hexDigit (n : Nat) : Char :=
  if n < 10 then Char.ofNat (48 + n) else Char.ofNat (87 + n)

/-- Value of a hex digit (either case), as `json.loads` reads `\uXXXX`. -/
def hexVal (c : Char) : Option Nat :=
  if 48 ≤ c.toNat ∧ c.toNat ≤ 57 then some (c.toNat - 48)
  else if 97 ≤ c.toNat ∧ c.toNat ≤ 102 then some (c.toNat - 87)
  else if 65 ≤ c.toNat ∧ c.toNat ≤ 70 then some (c.toNat - 55)
  else none

/-- JSON string escaping of one character (`ensure_ascii=False`). -/
def escChar (c : Char) : List Char :=
  if c = '"' then ['\\', '"']
  else if c = '\\' then ['\\', '\\']
  else if c = '\n' then ['\\', 'n']
  else if c = '\t' then ['\\', 't']
  else if c = '\r' then ['\\', 'r']
  else if c = '\x08' then ['\\', 'b']
  else if c = '\x0c' then ['\\', 'f']
  else if c.toNat < 32 then
    ['\\', 'u', '0', '0', hexDigit (c.toNat / 16), hexDigit (c.toNat % 16)]
  else [c]

/-- JSON string escaping of a character list. -/
def escStr : List Char → List Char
  | [] => []
  | c :: cs => escChar c ++ escStr cs

/-- A JSON string literal: quote, escaped body, quote. -/
def printStr (s : String) : List Char := '"' :: (escStr s.data ++ ['"'])

/-- Decimal digits of a natural number, most significant first. -/
def natChars (n : Nat) : List Char :=
  if _h : n < 10 then [digChar n]
  else natChars (n / 10) ++ [digChar (n % 10)]
decreasing_by exact Nat.div_lt_self (by omega) (by omega)

/-- Decimal form of a Python `int`. -/
def intChars (n : Int) : List Char :=
  if n < 0 then '-' :: natChars (-n).toNat else natChars n.toNat

mutual

/-- The two JSON boolean literals. -/
def boolChars (b : Bool) : List Char :=
  if b then ['t', 'r', 'u', 'e'] else ['f', 'a', 'l', 's', 'e']

/-- Pretty-print a JSON value at indentation level `ind`. -/
def printV (ind : Nat) : JVal → List Char
  | .null => ['n', 'u', 'l', 'l']
  | .bool b => boolChars b
  | .int n => intChars n
  | .str s => printStr s
  | .arr [] => ['[', ']']
  | .arr (x :: xs) =>
    '[' :: (printItems (ind + 2) x xs ++ '\n' :: (spaces ind ++ [']']))
  | .obj [] => [Char.ofNat 123, Char.ofNat 125]
  | .obj (f :: fs) =>
    Char.ofNat 123 :: (printFields (ind + 2) f fs ++ '\n' :: (spaces ind ++ [Char.ofNat 125]))
termination_by v => sizeOf v

/-- The comma-separated element lines of a non-empty array. -/
def printItems (ind : Nat) (x : JVal) (xs : List JVal) : List Char :=
  match xs with
  | [] => '\n' :: (spaces ind ++ printV ind x)
  | y :: ys => '\n' :: (spaces ind ++ printV ind x) ++ ',' :: printItems ind y ys
termination_by sizeOf x + sizeOf xs

/-- The comma-separated member lines of a non-empty object. -/
def printFields (ind : Nat) (f : String × JVal) (fs : List (String × JVal)) : List Char :=
  match f, fs with
  | (k, v), [] => '\n' :: (spaces ind ++ (printStr k ++ ':' :: ' ' :: printV ind v))
  | (k, v), g :: gs =>
    '\n' :: (spaces ind ++ (printStr k ++ ':' :: ' ' :: printV ind v)) ++
      ',' :: printFields ind g gs
termination_by sizeOf f + sizeOf fs

end

/-- `json.dumps(v, indent=2, ensure_ascii=False)`. -/
def json_dumps (v : JVal) : String := ⟨printV 0 v⟩

/-! ## `json.loads`

Modelled from the Python standard library's decoder for the values the
repository writes: a recursive-descent parser over the character list with a
fuel bound (the input length suffices).  Objects are built with dict
insert-or-update semantics, so a duplicated key keeps its first position and
last value, as CPython dicts do. -/

/-- JSON inter-token whitespace. -/
def isWs (c : Char) : Bool := c = ' ' || c = '\t' || c = '\n' || c = '\r'

/-- Skip inter-token whitespace. -/
def skipWs (cs : List Char) : List Char := cs.dropWhile isWs

/-- Parse the body of a string literal after the opening quote, undoing the
escapes; stops at the closing quote.  (Surrogate-pair recombination is not
modelled; the repository's encoder never emits `\u` above `\u001f`.) -/
def pStrBody : Nat → List Char → Option (List Char × List Char)
  | 0, _ => none
  | fuel + 1, cs =>
    match cs with
    | [] => none
    | c :: rest =>
      if c = '"' then some ([], rest)
      else if c = '\\' then
        match rest with
        | e :: r =>
          if e = '"' then (pStrBody fuel r).map (fun p => ('"' :: p.1, p.2))
          else if e = '\\' then (pStrBody fuel r).map (fun p => ('\\' :: p.1, p.2))
          else if e = '/' then (pStrBody fuel r).map (fun p => ('/' :: p.1, p.2))
          else if e = 'n' then (pStrBody fuel r).map (fun p => ('\n' :: p.1, p.2))
          else if e = 't' then (pStrBody fuel r).map (fun p => ('\t' :: p.1, p.2))
          else if e = 'r' then (pStrBody fuel r).map (fun p => ('\r' :: p.1, p.2))
          else if e = 'b' then (pStrBody fuel r).map (fun p => ('\x08' :: p.1, p.2))
          else if e = 'f' then (pStrBody fuel r).map (fun p => ('\x0c' :: p.1, p.2))
          else if e = 'u' then
            match r with
            | h1 :: h2 :: h3 :: h4 :: r2 =>
              match hexVal h1, hexVal h2, hexVal h3, hexVal h4 with
              | some a, some b, some c2, some d =>
                (pStrBody fuel r2).map
                  (fun p => (Char.ofNat (((a * 16 + b) * 16 + c2) * 16 + d) :: p.1, p.2))
              | _, _, _, _ => none
            | _ => none
          else none
        | [] => none
      else if 32 ≤ c.toNat then (pStrBody fuel rest).map (fun p => (c :: p.1, p.2))
      else none

/-- Parse an integer literal (the only number shape the repository emits). -/
def pInt (cs : List Char) : Option (Int × List Char) :=
  match cs with
  | [] => none
  | c :: rest =>
    if c = '-' then
      let ds := rest.takeWhile Char.isDigit
      if ds.isEmpty then none
      else some (-(digitsToNat ds : Int), rest.dropWhile Char.isDigit)
    else
      let ds := (c :: rest).takeWhile Char.isDigit
      if ds.isEmpty then none
      else some ((digitsToNat ds : Int), (c :: rest).dropWhile Char.isDigit)

/-- Dict insert-or-update: a fresh key appends, an existing key keeps its
position and takes the new value. -/
def insertPair (d : List (String × JVal)) (k : String) (v : JVal) :
    List (String × JVal) :=
  match d with
  | [] => [(k, v)]
  | (k0, v0) :: rest => if k0 = k then (k0, v) :: rest else (k0, v0) :: insertPair rest k v

/-- Build a dict from parsed members in order, CPython-style. -/
def dictify (ps : List (String × JVal)) : List (String × JVal) :=
  ps.foldl (fun d p => insertPair d p.1 p.2) []

mutual

/-- Parse one JSON value. -/
def pV : Nat → List Char → Option (JVal × List Char)
  | 0, _ => none
  | fuel + 1, cs =>
    match skipWs cs with
    | [] => none
    | c :: rest =>
      if c = 'n' then
        match rest with
        | 'u' :: 'l' :: 'l' :: r => some (.null, r)
        | _ => none
      else if c = 't' then
        match rest with
        | 'r' :: 'u' :: 'e' :: r => some (.bool true, r)
        | _ => none
      else if c = 'f' then
        match rest with
        | 'a' :: 'l' :: 's' :: 'e' :: r => some (.bool false, r)
        | _ => none
      else if c = '"' then
        match pStrBody fuel rest with
        | some (k, r) => some (.str ⟨k⟩, r)
        | none => none
      else if c = '[' then
        match skipWs rest with
        | c2 :: _ =>
          if c2 = ']' then some (.arr [], (skipWs rest).tail)
          else
            match pElems fuel rest with
            | some (vs, r) => some (.arr vs, r)
            | none => none
        | [] => none
      else if c = Char.ofNat 123 then
        match skipWs rest with
        | c2 :: _ =>
          if c2 = Char.ofNat 125 then some (.obj [], (skipWs rest).tail)
          else
            match pMems fuel rest with
            | some (ms, r2) => some (.obj (dictify ms), r2)
            | none => none
        | [] => none
      else
        match pInt (c :: rest) with
        | some (n, r) => some (.int n, r)
        | none => none

/-- Parse the elements of a non-empty array, consuming the closing bracket. -/
def pElems : Nat → List Char → Option (List JVal × List Char)
  | 0, _ => none
  | fuel + 1, cs =>
    match pV fuel cs with
    | none => none
    | some (v, r) =>
      match skipWs r with
      | c :: r2 =>
        if c = ',' then
          match pElems fuel r2 with
          | some (vs, r3) => some (v :: vs, r3)
          | none => none
        else if c = ']' then some ([v], r2)
        else none
      | [] => none

/-- Parse the members of a non-empty object, consuming the closing brace. -/
def pMems : Nat → List Char → Option (List (String × JVal) × List Char)
  | 0, _ => none
  | fuel + 1, cs =>
    match skipWs cs with
    | c :: r =>
      if c = '"' then
        match pStrBody fuel r with
        | some (k, r1) =>
          match skipWs r1 with
          | c2 :: r2 =>
            if c2 = ':' then
              match pV fuel r2 with
              | some (v, r3) =>
                match skipWs r3 with
                | c4 :: r4 =>
                  if c4 = ',' then
                    match pMems fuel r4 with
                    | some (ms, r5) => some ((⟨k⟩, v) :: ms, r5)
                    | none => none
                  else if c4 = Char.ofNat 125 then some ([(⟨k⟩, v)], r4)
                  else none
                | [] => none
              | none => none
            else none
          | [] => none
        | none => none
      else none
    | [] => none

end

/-- `json.loads`: parse a full document, allowing only trailing whitespace. -/
def json_loads (s : String) : Option JVal :=
  match pV (s.length + 1) s.data with
  | some (v, rest) => if (skipWs rest).isEmpty then some v else none
  | none => none

/-- A character list that does not begin with a digit: the shape of the text
allowed to follow a printed number. -/
def restHeadOk (rest : List Char) : Prop :=
  ∀ c, rest.head? = some c → Char.isDigit c = false

mutual

/-- Fuel sufficient for `pV` to parse the printed form of a value. -/
def needV : JVal → Nat
  | .null => 1
  | .bool _ => 1
  | .int _ => 1
  | .str s => s.length + 2
  | .arr [] => 1
  | .arr (x :: xs) => 1 + needElems x xs
  | .obj [] => 1
  | .obj (f :: fs) => 1 + needMems f fs
termination_by v => sizeOf v

/-- Fuel sufficient for `pElems` on the printed elements of a non-empty
array. -/
def needElems (x : JVal) (xs : List JVal) : Nat :=
  match xs with
  | [] => 1 + needV x
  | y :: ys => 1 + max (needV x) (needElems y ys)
termination_by sizeOf x + sizeOf xs

/-- Fuel sufficient for `pMems` on the printed members of a non-empty
object. -/
def needMems (f : String × JVal) (fs : List (String × JVal)) : Nat :=
  match f, fs with
  | (k, v), [] => 1 + max (k.length + 1) (needV v)
  | (k, v), g :: gs => 1 + max (k.length + 1) (max (needV v) (needMems g gs))
termination_by sizeOf f + sizeOf fs

end

/-- No-duplicate check on object keys. -/
def nodupKeys : List String → Bool
  | [] => true
  | k :: ks => !(ks.contains k) && nodupKeys ks

mutual

/-- A JSON value all of whose objects have pairwise distinct keys — the shape
of any structure obtained from Python dicts. -/
def wfV : JVal → Bool
  | .null => true
  | .bool _ => true
  | .int _ => true
  | .str _ => true
  | .arr xs => wfElems xs
  | .obj fs => nodupKeys (fs.map Prod.fst) && wfMems fs

/-- `wfV` over array elements. -/
def wfElems : List JVal → Bool
  | [] => true
  | x :: xs => wfV x && wfElems xs

/-- `wfV` over object member values. -/
def wfMems : List (String × JVal) → Bool
  | [] => true
  | f :: fs => wfV f.2 && wfMems fs

end

/-! ## `themes-job.run_analysis` and `exceptions.py`

The orchestrator's external collaborators (environment, Vertex AI client
construction, the GCS load, ThemeFinder, the GCS write) are modelled by their
outcomes; an uncaught Python exception inside a stage is an `Except.error`
carrying its message.  `run_analysis` re-wraps each stage's failure exactly as
the source does. -/

/-- The typed errors `run_analysis` can raise (from `exceptions.py`). -/
inductive StageError where
  | configurationError (msg : String)
  | gcsOperationError (msg : String)
  | themeFinderError (msg : String)
deriving DecidableEq

/-- The error type (constructor) alone, forgetting the message: what a caller
branching on exception type can observe. -/
def StageError.kind : StageError → Nat
  | .configurationError _ => 0
  | .gcsOperationError _ => 1
  | .themeFinderError _ => 2

/-- Python truthiness of an optional environment string (`None` and `""` are
falsy). -/
def truthy : Option String → Bool
  | none => false
  | some s => s != ""

/-- Python `a or b` over optional strings. -/
def pyOrElse (a b : Option String) : Option String :=
  if truthy a then a else b

/-- `themes-job.run_analysis`, parametrised by the environment variables and
by the outcome of each external step.  File-name and question resolution are
elided: they have no failure path and do not affect the error flow.  The
first `try` block covers both the `ChatVertexAI` construction and the load,
exactly as in the source. -/
def run_analysis (staging_bucket input_bucket output_bucket : Option String)
    (llm_init : Except String Unit)
    (load : Except String (List CanonicalRecord))
    (find_themes : Except String Unit)
    (save : Except String Unit) : Except StageError Unit :=
  let input_bucket1 := pyOrElse staging_bucket input_bucket
  if !truthy input_bucket1 || !truthy output_bucket then
    .error (.configurationError
      "Environment variables STAGING_BUCKET (or INPUT_BUCKET) and OUTPUT_BUCKET must be set.")
  else
    match llm_init with
    | .error e => .error (.gcsOperationError ("Failed to load feedback from GCS: " ++ e))
    | .ok _ =>
      match load with
      | .error e => .error (.gcsOperationError ("Failed to load feedback from GCS: " ++ e))
      | .ok _ =>
        match find_themes with
        | .error e => .error (.themeFinderError ("ThemeFinder processing failed: " ++ e))
        | .ok _ =>
          match save with
          | .error e => .error (.gcsOperationError ("Failed to save results to GCS: " ++ e))
          | .ok _ => .ok ()

/-! ## Helper lemmas -/

/-- `takeWhile`/`dropWhile` split an all-true prefix followed by a suffix
whose head fails the predicate. -/
theorem takeWhile_append_all (p : Char → Bool) (ds sfx : List Char)
    (hds : ∀ c ∈ ds, p c = true)
    (hsfx : sfx = [] ∨ ∃ c t, sfx = c :: t ∧ p c = false) :
    (ds ++ sfx).takeWhile p = ds ∧ (ds ++ sfx).dropWhile p = sfx := by
  induction ds with
  | nil =>
    rcases hsfx with rfl | ⟨c, t, rfl, hc⟩
    · exact ⟨rfl, rfl⟩
    · simp [List.takeWhile_cons, List.dropWhile_cons, hc]
  | cons d ds ih =>
    have hd : p d = true := hds d (by simp)
    have ih' := ih (fun c hc => hds c (by simp [hc]))
    simp [List.takeWhile_cons, List.dropWhile_cons, hd, ih'.1, ih'.2]

/-- The embedded regex accepts any decomposition into `STP`, a non-empty
digit group, and an optional `-<digits>` suffix, capturing the digit group. -/
theorem idPatternMatch_of_decomp (ds sfx : List Char)
    (hne : ds ≠ []) (hdig : ∀ c ∈ ds, c.isDigit = true)
    (hsfx : sfx = [] ∨ ∃ ds2, sfx = '-' :: ds2 ∧ ds2 ≠ [] ∧ (∀ c ∈ ds2, c.isDigit = true)) :
    idPatternMatch ('S' :: 'T' :: 'P' :: (ds ++ sfx)) = some ds := by
  have hsfx' : sfx = [] ∨ ∃ c t, sfx = c :: t ∧ Char.isDigit c = false := by
    rcases hsfx with rfl | ⟨ds2, rfl, _, _⟩
    · exact Or.inl rfl
    · exact Or.inr ⟨'-', ds2, rfl, by decide⟩
  obtain ⟨htake, hdrop⟩ := takeWhile_append_all Char.isDigit ds sfx hdig hsfx'
  simp only [idPatternMatch]
  rw [if_pos (⟨trivial, trivial, trivial⟩ : True ∧ True ∧ True)]
  simp only [htake, hdrop]
  rw [if_neg hne]
  rcases hsfx with rfl | ⟨ds2, rfl, hne2, hdig2⟩
  · rfl
  · simp only []
    rw [if_pos trivial, if_neg hne2, if_pos (List.all_eq_true.mpr hdig2)]

/-- Zipping two maps of the same list is a single map. -/
theorem zipWith_map_same {α β γ : Type} (f : β → β → γ) (g1 g2 : α → β) :
    ∀ l : List α, List.zipWith f (l.map g1) (l.map g2) = l.map (fun x => f (g1 x) (g2 x)) := by
  intro l
  induction l with
  | nil => rfl
  | cons x xs ih => simp [ih]

/-- Boolean-mask selection with a pointwise mask is `List.filter`. -/
theorem maskSelect_map (p : List Cell → Bool) :
    ∀ rows : List (List Cell), maskSelect rows (rows.map p) = rows.filter p := by
  intro rows
  induction rows with
  | nil => rfl
  | cons r rs ih =>
    by_cases h : p r = true <;> simp [maskSelect, List.filter, h, ih]

/-- The source's mask pipeline computes exactly the spec's row filter. -/
theorem filter_rows_eq (df : Table) (text_col : String) :
    (_filter_empty_feedback df text_col).rows =
      df.rows.filter (specKeepRow df.columns text_col) := by
  unfold _filter_empty_feedback
  simp only [List.map_map, zipWith_map_same]
  rw [maskSelect_map]
  apply List.filter_congr
  intro r _
  simp only [Function.comp]
  cases hc : getCell df.columns r text_col with
  | none => simp [specKeepRow, hc]
  | some s => simp [specKeepRow, hc, cellToStr]

/-- A character with code above 32 is not Python whitespace. -/
theorem not_ws_of_toNat (c : Char) (h : 32 < c.toNat) : pyIsSpace c = false := by
  cases hps : pyIsSpace c
  · rfl
  · exfalso
    unfold pyIsSpace at hps
    simp only [Bool.or_eq_true, decide_eq_true_eq] at hps
    rcases hps with ((((h1 | h2) | h3) | h4) | h5) | h6 <;>
      (subst_vars; revert h; decide)

/-- A character whose lowercase form is a printable character is not
whitespace. -/
theorem lowerChar_not_ws (c d : Char) (h : lowerChar c = d) (hd : 32 < d.toNat) :
    pyIsSpace c = false := by
  unfold lowerChar at h
  split_ifs at h with hc
  · exact not_ws_of_toNat c (by omega)
  · exact not_ws_of_toNat c (by rw [h]; exact hd)

/-- A character list that lowercases to `nan` has no surrounding whitespace
to strip. -/
theorem stripL_of_lower_nan (l : List Char) (h : l.map lowerChar = ['n', 'a', 'n']) :
    stripL l = l := by
  rcases l with _ | ⟨c1, _ | ⟨c2, _ | ⟨c3, _ | ⟨c4, t⟩⟩⟩⟩ <;> simp at h
  obtain ⟨h1, h2, h3⟩ := h
  have w1 : pyIsSpace c1 = false := lowerChar_not_ws c1 'n' h1 (by decide)
  have w3 : pyIsSpace c3 = false := lowerChar_not_ws c3 'n' h3 (by decide)
  simp [stripL, List.dropWhile_cons, w1, w3]

/-- A string that is case-insensitively `nan` is unchanged by `strip()`. -/
theorem pyLower_nan_strip (s : String) (h : pyLower s = "nan") : pyStrip s = s := by
  have hdata : s.data.map lowerChar = ['n', 'a', 'n'] := congrArg String.data h
  apply String.ext
  show stripL s.data = s.data
  exact stripL_of_lower_nan s.data hdata

/-- A successfully normalised identifier is a non-negative integer. -/
theorem normalise_nonneg (raw : String) (n : Int)
    (h : _normalise_response_id raw = .ok n) : 0 ≤ n := by
  simp only [_normalise_response_id] at h
  cases hm : idPatternMatch (pyStrip raw).data <;> rw [hm] at h
  · exact Except.noConfusion h
  · cases h
    exact Int.ofNat_nonneg _

/-- Every record zipped from a successful `mapM` of ids over the rows comes
from some row, with its id produced by the row's normalisation and its
response read from the same row. -/
theorem zip_mapM_mem (f : List Cell → Except String Int) (g : List Cell → String) :
    ∀ (rows : List (List Cell)) (ids : List Int),
      rows.mapM f = .ok ids →
      ∀ rec ∈ List.zipWith (fun i r => CanonicalRecord.mk i (g r)) ids rows,
        ∃ row ∈ rows, f row = .ok rec.response_id ∧ rec.response = g row := by
  intro rows
  induction rows with
  | nil =>
    intro ids hm rec hrec
    rw [List.mapM_nil] at hm
    simp only [pure, Except.pure] at hm
    cases hm
    simp at hrec
  | cons x xs ih =>
    intro ids hm rec hrec
    rw [List.mapM_cons] at hm
    cases hf : f x <;> rw [hf] at hm
    · exact Except.noConfusion hm
    · cases hms : xs.mapM f <;> rw [hms] at hm
      · exact Except.noConfusion hm
      · simp only [bind, Except.bind, pure, Except.pure] at hm
        cases hm
        simp only [List.zipWith] at hrec
        rcases List.mem_cons.mp hrec with rfl | htail
        · exact ⟨x, List.mem_cons_self x xs, by simpa using hf, rfl⟩
        · obtain ⟨row, hrowmem, hrest⟩ := ih _ hms rec htail
          exact ⟨row, List.mem_cons_of_mem x hrowmem, hrest⟩


/-! ## JSON printer/parser lemmas -/

theorem spaces_ws : ∀ n, ∀ c ∈ spaces n, isWs c = true := by
  intro n
  induction n with
  | zero => intro c hc; simp [spaces] at hc
  | succ m ih =>
    intro c hc
    rcases List.mem_cons.mp hc with rfl | h
    · decide
    · exact ih c h

theorem skipWs_append_ws (pre cs : List Char) (h : ∀ c ∈ pre, isWs c = true) :
    skipWs (pre ++ cs) = skipWs cs := by
  induction pre with
  | nil => rfl
  | cons c t ih =>
    have hc : isWs c = true := h c (by simp)
    simp only [List.cons_append, skipWs, List.dropWhile_cons, hc, if_true]
    exact ih (fun d hd => h d (by simp [hd]))

theorem skipWs_not_ws (c : Char) (cs : List Char) (h : isWs c = false) :
    skipWs (c :: cs) = c :: cs := by
  simp [skipWs, List.dropWhile_cons, h]

theorem pV_ws (fuel : Nat) (pre cs : List Char) (h : ∀ c ∈ pre, isWs c = true) :
    pV fuel (pre ++ cs) = pV fuel cs := by
  cases fuel with
  | zero => rfl
  | succ f => simp only [pV, skipWs_append_ws pre cs h]

theorem ne_of_toNat (c d : Char) (h : c.toNat ≠ d.toNat) : c ≠ d :=
  fun he => h (congrArg Char.toNat he)

theorem isWs_false_of_gt (c : Char) (h : 32 < c.toNat) : isWs c = false := by
  cases hps : isWs c
  · rfl
  · exfalso
    unfold isWs at hps
    simp only [Bool.or_eq_true, decide_eq_true_eq] at hps
    rcases hps with ((h1 | h2) | h3) | h4 <;> (subst_vars; revert h; decide)

theorem isDigit_of_toNat (c : Char) (h1 : 48 ≤ c.toNat) (h2 : c.toNat ≤ 57) :
    Char.isDigit c = true := by
  simp only [Char.isDigit, Bool.and_eq_true, decide_eq_true_eq, ge_iff_le]
  constructor <;> rw [UInt32.le_def, BitVec.le_def] <;> exact_mod_cast ‹_›

theorem toNat_of_isDigit (c : Char) (h : Char.isDigit c = true) :
    48 ≤ c.toNat ∧ c.toNat ≤ 57 := by
  simp only [Char.isDigit, Bool.and_eq_true, decide_eq_true_eq, ge_iff_le] at h
  obtain ⟨h1, h2⟩ := h
  rw [UInt32.le_def, BitVec.le_def] at h1 h2
  exact ⟨by exact_mod_cast h1, by exact_mod_cast h2⟩

theorem digitsToNat_snoc (l : List Char) (c : Char) :
    digitsToNat (l ++ [c]) = 10 * digitsToNat l + (c.toNat - 48) := by
  simp [digitsToNat, List.foldl_append, Nat.mul_comm]

theorem digChar_toNat : ∀ d, d < 10 → (digChar d).toNat = 48 + d := by decide

theorem natChars_spec : ∀ n : Nat,
    (∃ c t, natChars n = c :: t ∧ 48 ≤ c.toNat ∧ c.toNat ≤ 57)
    ∧ (∀ c ∈ natChars n, Char.isDigit c = true)
    ∧ digitsToNat (natChars n) = n := by
  intro n
  induction n using Nat.strong_induction_on with
  | _ n ih =>
    by_cases h : n < 10
    · rw [natChars, dif_pos h]
      have hn := digChar_toNat n h
      refine ⟨⟨digChar n, [], rfl, by omega, by omega⟩, ?_, ?_⟩
      · intro c hc
        rcases List.mem_singleton.mp hc with rfl
        exact isDigit_of_toNat _ (by omega) (by omega)
      · simp [digitsToNat]
        omega
    · rw [natChars, dif_neg h]
      have hlt : n / 10 < n := Nat.div_lt_self (by omega) (by omega)
      obtain ⟨⟨c, t, hct, hc1, hc2⟩, hall, hval⟩ := ih (n / 10) hlt
      have hd10 : n % 10 < 10 := Nat.mod_lt n (by omega)
      have hmn := digChar_toNat (n % 10) hd10
      refine ⟨⟨c, t ++ [digChar (n % 10)], by rw [hct]; simp, hc1, hc2⟩, ?_, ?_⟩
      · intro d hd
        rcases List.mem_append.mp hd with h1 | h2
        · exact hall d h1
        · rcases List.mem_singleton.mp h2 with rfl
          exact isDigit_of_toNat _ (by omega) (by omega)
      · rw [digitsToNat_snoc, hval]
        omega

theorem intChars_head (n : Int) :
    ∃ c t, intChars n = c :: t ∧ 45 ≤ c.toNat ∧ c.toNat ≤ 57 := by
  unfold intChars
  split_ifs with h
  · exact ⟨'-', natChars (-n).toNat, rfl, by decide, by decide⟩
  · obtain ⟨⟨c, t, hct, h1, h2⟩, -, -⟩ := natChars_spec n.toNat
    exact ⟨c, t, by rw [hct], by omega, h2⟩

theorem takeWhile_nat_append (m : Nat) (rest : List Char)
    (hsfx : rest = [] ∨ ∃ c t, rest = c :: t ∧ Char.isDigit c = false) :
    (natChars m ++ rest).takeWhile Char.isDigit = natChars m
    ∧ (natChars m ++ rest).dropWhile Char.isDigit = rest := by
  obtain ⟨-, hall, -⟩ := natChars_spec m
  exact takeWhile_append_all Char.isDigit (natChars m) rest hall
    (by rcases hsfx with rfl | ⟨c, t, rfl, hc⟩
        · exact Or.inl rfl
        · exact Or.inr ⟨c, t, rfl, hc⟩)

theorem pInt_print (n : Int) (rest : List Char)
    (hsfx : rest = [] ∨ ∃ c t, rest = c :: t ∧ Char.isDigit c = false) :
    pInt (intChars n ++ rest) = some (n, rest) := by
  unfold intChars
  split_ifs with h
  · obtain ⟨c, t, hct, hc1, hc2⟩ := (natChars_spec (-n).toNat).1
    obtain ⟨htake, hdrop⟩ := takeWhile_nat_append (-n).toNat rest hsfx
    have hval := (natChars_spec (-n).toNat).2.2
    have hne : natChars (-n).toNat ≠ [] := by rw [hct]; simp
    simp only [List.cons_append, pInt]
    rw [if_pos trivial]
    simp only [htake, hdrop]
    rw [if_neg (by simpa using hne), hval,
      Int.toNat_of_nonneg (by omega : (0 : Int) ≤ -n)]
    simp
  · obtain ⟨c, t, hct, hc1, hc2⟩ := (natChars_spec n.toNat).1
    obtain ⟨htake, hdrop⟩ := takeWhile_nat_append n.toNat rest hsfx
    have hval := (natChars_spec n.toNat).2.2
    rw [hct] at htake hdrop hval ⊢
    simp only [List.cons_append] at htake hdrop ⊢
    have hcdash : c ≠ '-' := ne_of_toNat c '-'
      (by have : ('-').toNat = 45 := by decide
          omega)
    simp only [pInt, if_neg hcdash, htake, hdrop]
    rw [if_neg (by simp), hval, Int.toNat_of_nonneg (by omega : (0 : Int) ≤ n)]

theorem hexVal_hexDigit : ∀ a, a < 16 → hexVal (hexDigit a) = some a := by decide

theorem pStrBody_esc : ∀ (cs : List Char) (fuel : Nat) (rest : List Char),
    cs.length + 1 ≤ fuel →
    pStrBody fuel (escStr cs ++ '"' :: rest) = some (cs, rest) := by
  intro cs
  induction cs with
  | nil =>
    intro fuel rest hf
    obtain ⟨f, rfl⟩ : ∃ f, fuel = f + 1 := ⟨fuel - 1, by omega⟩
    simp [escStr, pStrBody]
  | cons c cs ih =>
    intro fuel rest hf
    obtain ⟨f, rfl⟩ : ∃ f, fuel = f + 1 := ⟨fuel - 1, by omega⟩
    have hb : cs.length + 1 ≤ f := by
      simp only [List.length_cons] at hf
      omega
    have hih := ih f rest hb
    simp only [escStr, List.append_assoc]
    unfold escChar
    split_ifs with h1 h2 h3 h4 h5 h6 h7 h8
    · subst h1; simp [pStrBody, hih]
    · subst h2; simp [pStrBody, hih]
    · subst h3; simp [pStrBody, hih]
    · subst h4; simp [pStrBody, hih]
    · subst h5; simp [pStrBody, hih]
    · subst h6; simp [pStrBody, hih]
    · subst h7; simp [pStrBody, hih]
    · have hval : c.toNat / 16 * 16 + c.toNat % 16 = c.toNat := by omega
      simp [pStrBody, (by decide : hexVal '0' = some 0),
        hexVal_hexDigit _ (by omega : c.toNat / 16 < 16),
        hexVal_hexDigit _ (by omega : c.toNat % 16 < 16), hih]
      rw [hval, Char.ofNat_toNat]
    · have h32 : 32 ≤ c.toNat := by omega
      simp [pStrBody, h1, h2, h32, hih]

theorem needV_pos : ∀ v : JVal, 1 ≤ needV v := by
  intro v
  cases v with
  | null => simp [needV]
  | bool b => simp [needV]
  | int n => simp [needV]
  | str s => simp [needV]
  | arr xs => cases xs <;> simp [needV]
  | obj fs => cases fs <;> simp [needV]

theorem needElems_pos : ∀ (x : JVal) (xs : List JVal), 1 ≤ needElems x xs := by
  intro x xs
  cases xs <;> simp [needElems]

theorem needMems_pos : ∀ (f : String × JVal) (fs : List (String × JVal)), 1 ≤ needMems f fs := by
  intro f fs
  rcases f with ⟨k, v⟩
  cases fs <;> simp [needMems]

theorem printV_head (ind : Nat) (v : JVal) :
    ∃ c t, printV ind v = c :: t ∧ isWs c = false ∧ c ≠ ']' ∧ c ≠ Char.ofNat 125 := by
  cases v with
  | null => exact ⟨'n', ['u', 'l', 'l'], by simp [printV], by decide, by decide, by decide⟩
  | bool b =>
    cases b
    · exact ⟨'f', ['a', 'l', 's', 'e'], by simp [printV, boolChars], by decide, by decide, by decide⟩
    · exact ⟨'t', ['r', 'u', 'e'], by simp [printV, boolChars], by decide, by decide, by decide⟩
  | int n =>
    obtain ⟨c, t, hct, h1, h2⟩ := intChars_head n
    refine ⟨c, t, by simp [printV, hct], isWs_false_of_gt c (by omega), ?_, ?_⟩
    · refine ne_of_toNat c ']' ?_
      have h93 : (']').toNat = 93 := by decide
      omega
    · refine ne_of_toNat c (Char.ofNat 125) ?_
      have h125 : (Char.ofNat 125).toNat = 125 := by decide
      omega
  | str s =>
    exact ⟨'"', escStr s.data ++ ['"'], by simp [printV, printStr], by decide, by decide, by decide⟩
  | arr xs =>
    cases xs with
    | nil => exact ⟨'[', [']'], by simp [printV], by decide, by decide, by decide⟩
    | cons x xs =>
      refine ⟨'[', printItems (ind + 2) x xs ++ '\n' :: (spaces ind ++ [']']), ?_,
        by decide, by decide, by decide⟩
      simp [printV]
  | obj fs =>
    cases fs with
    | nil => exact ⟨Char.ofNat 123, [Char.ofNat 125], by simp [printV], by decide, by decide, by decide⟩
    | cons f fs =>
      refine ⟨Char.ofNat 123, printFields (ind + 2) f fs ++ '\n' :: (spaces ind ++ [Char.ofNat 125]), ?_,
        by decide, by decide, by decide⟩
      simp [printV]

theorem insertPair_not_mem (d : List (String × JVal)) (k : String) (v : JVal)
    (h : k ∉ d.map Prod.fst) : insertPair d k v = d ++ [(k, v)] := by
  induction d with
  | nil => rfl
  | cons p rest ih =>
    rcases p with ⟨k0, v0⟩
    simp only [List.map_cons, List.mem_cons, not_or] at h
    simp only [insertPair, if_neg (Ne.symm h.1), List.cons_append]
    rw [ih h.2]

theorem dictify_go (ps : List (String × JVal)) :
    ∀ acc : List (String × JVal),
      (acc.map Prod.fst ++ ps.map Prod.fst).Nodup →
      ps.foldl (fun d p => insertPair d p.1 p.2) acc = acc ++ ps := by
  induction ps with
  | nil => intro acc _; simp
  | cons p rest ih =>
    intro acc h
    have hknotacc : p.1 ∉ acc.map Prod.fst := by
      rw [List.nodup_append] at h
      intro hmem
      exact h.2.2 hmem (by simp)
    have h' : ((acc ++ [p]).map Prod.fst ++ rest.map Prod.fst).Nodup := by
      simp only [List.map_append, List.map_cons, List.map_nil] at h ⊢
      simpa [List.append_assoc, List.singleton_append] using h
    simp only [List.foldl_cons]
    rw [insertPair_not_mem acc p.1 p.2 hknotacc]
    have hpe : (p.1, p.2) = p := rfl
    rw [hpe, ih (acc ++ [p]) h']
    simp

theorem nodupKeys_iff : ∀ l : List String, nodupKeys l = true ↔ l.Nodup := by
  intro l
  induction l with
  | nil => simp [nodupKeys]
  | cons k ks ih =>
    simp [nodupKeys, List.nodup_cons, ih, List.elem_iff]

theorem dictify_of_nodup (ps : List (String × JVal))
    (h : nodupKeys (ps.map Prod.fst) = true) : dictify ps = ps := by
  have := dictify_go ps [] (by simpa using (nodupKeys_iff _).mp h)
  simpa [dictify] using this

theorem restHeadOk_cons (c : Char) (l : List Char) (h : Char.isDigit c = false) :
    restHeadOk (c :: l) := by
  intro d hd
  simp only [List.head?] at hd
  cases hd
  exact h

theorem restHeadOk_disj (rest : List Char) (h : restHeadOk rest) :
    rest = [] ∨ ∃ c t, rest = c :: t ∧ Char.isDigit c = false := by
  cases rest with
  | nil => exact Or.inl rfl
  | cons c t => exact Or.inr ⟨c, t, rfl, h c rfl⟩

theorem nl_spaces_ws (ind : Nat) : ∀ c ∈ '\n' :: spaces ind, isWs c = true := by
  intro c hc
  rcases List.mem_cons.mp hc with rfl | hh
  · decide
  · exact spaces_ws ind c hh

theorem skipWs_printItems (ind : Nat) (x : JVal) (xs : List JVal) (tail : List Char) :
    ∃ c0 l0, skipWs (printItems ind x xs ++ tail) = c0 :: l0
      ∧ isWs c0 = false ∧ c0 ≠ ']' ∧ c0 ≠ Char.ofNat 125 := by
  obtain ⟨c0, t0, hpr, hws, hb1, hb2⟩ := printV_head ind x
  cases xs with
  | nil =>
    refine ⟨c0, t0 ++ tail, ?_, hws, hb1, hb2⟩
    have h1 : printItems ind x [] ++ tail
        = ('\n' :: spaces ind) ++ (printV ind x ++ tail) := by
      simp [printItems, List.append_assoc]
    rw [h1, skipWs_append_ws _ _ (nl_spaces_ws ind), hpr, List.cons_append,
      skipWs_not_ws c0 _ hws]
  | cons y ys =>
    refine ⟨c0, t0 ++ (',' :: (printItems ind y ys ++ tail)), ?_, hws, hb1, hb2⟩
    have h1 : printItems ind x (y :: ys) ++ tail
        = ('\n' :: spaces ind) ++ (printV ind x ++ (',' :: (printItems ind y ys ++ tail))) := by
      simp [printItems, List.append_assoc]
    rw [h1, skipWs_append_ws _ _ (nl_spaces_ws ind), hpr, List.cons_append,
      skipWs_not_ws c0 _ hws]

theorem skipWs_printFields (ind : Nat) (k : String) (v : JVal)
    (fs : List (String × JVal)) (tail : List Char) :
    skipWs (printFields ind (k, v) fs ++ tail)
      = '"' :: (escStr k.data ++ ('"' :: (':' :: ' ' :: (printV ind v ++
          (match fs with
           | [] => tail
           | g :: gs => ',' :: (printFields ind g gs ++ tail)))))) := by
  cases fs with
  | nil =>
    have h1 : printFields ind (k, v) [] ++ tail
        = ('\n' :: spaces ind) ++
          ('"' :: (escStr k.data ++ ('"' :: (':' :: ' ' :: (printV ind v ++ tail))))) := by
      simp [printFields, printStr, List.append_assoc]
    rw [h1, skipWs_append_ws _ _ (nl_spaces_ws ind), skipWs_not_ws '"' _ (by decide)]
  | cons g gs =>
    have h1 : printFields ind (k, v) (g :: gs) ++ tail
        = ('\n' :: spaces ind) ++
          ('"' :: (escStr k.data ++ ('"' :: (':' :: ' ' :: (printV ind v ++
            (',' :: (printFields ind g gs ++ tail))))))) := by
      simp [printFields, printStr, List.append_assoc]
    rw [h1, skipWs_append_ws _ _ (nl_spaces_ws ind), skipWs_not_ws '"' _ (by decide)]

theorem parse_print : ∀ fuel : Nat,
    (∀ (v : JVal) (ind : Nat) (rest : List Char),
      needV v ≤ fuel → wfV v = true → restHeadOk rest →
      pV fuel (printV ind v ++ rest) = some (v, rest))
    ∧ (∀ (x : JVal) (xs : List JVal) (ind j : Nat) (rest : List Char),
      needElems x xs ≤ fuel → wfV x = true → wfElems xs = true → restHeadOk rest →
      pElems fuel (printItems ind x xs ++ '\n' :: (spaces j ++ ']' :: rest)) =
        some (x :: xs, rest))
    ∧ (∀ (fp : String × JVal) (fs : List (String × JVal)) (ind j : Nat) (rest : List Char),
      needMems fp fs ≤ fuel → wfV fp.2 = true → wfMems fs = true → restHeadOk rest →
      pMems fuel (printFields ind fp fs ++ '\n' :: (spaces j ++ Char.ofNat 125 :: rest)) =
        some (fp :: fs, rest)) := by
  intro fuel
  induction fuel with
  | zero =>
    refine ⟨?_, ?_, ?_⟩
    · intro v ind rest hn _ _
      exact absurd hn (by have := needV_pos v; omega)
    · intro x xs ind j rest hn _ _ _
      exact absurd hn (by have := needElems_pos x xs; omega)
    · intro fp fs ind j rest hn _ _ _
      exact absurd hn (by have := needMems_pos fp fs; omega)
  | succ f ih =>
    obtain ⟨ihV, ihE, ihM⟩ := ih
    refine ⟨?_, ?_, ?_⟩
    · intro v ind rest hn hwf hrest
      cases v with
      | null =>
        simp [printV, pV, skipWs, List.dropWhile_cons, isWs]
      | bool b =>
        cases b <;> simp [printV, boolChars, pV, skipWs, List.dropWhile_cons, isWs]
      | int n =>
        obtain ⟨c, t, hct, h1, h2⟩ := intChars_head n
        have hws : isWs c = false := isWs_false_of_gt c (by omega)
        have hprint : printV ind (JVal.int n) = intChars n := by simp [printV]
        rw [hprint, hct, List.cons_append]
        simp only [pV]
        rw [skipWs_not_ws c (t ++ rest) hws]
        dsimp only
        rw [if_neg (ne_of_toNat c 'n' (by have hx : ('n').toNat = 110 := by decide
                                          omega)),
          if_neg (ne_of_toNat c 't' (by have hx : ('t').toNat = 116 := by decide
                                        omega)),
          if_neg (ne_of_toNat c 'f' (by have hx : ('f').toNat = 102 := by decide
                                        omega)),
          if_neg (ne_of_toNat c '"' (by have hx : ('"').toNat = 34 := by decide
                                        omega)),
          if_neg (ne_of_toNat c '[' (by have hx : ('[').toNat = 91 := by decide
                                        omega)),
          if_neg (ne_of_toNat c (Char.ofNat 123)
            (by have hx : (Char.ofNat 123).toNat = 123 := by decide
                omega))]
        rw [← List.cons_append, ← hct, pInt_print n rest (restHeadOk_disj rest hrest)]
      | str s =>
        have hb : s.data.length + 1 ≤ f := by
          have : needV (JVal.str s) = s.length + 2 := by simp [needV]
          rw [this] at hn
          have hsl : s.length = s.data.length := rfl
          omega
        have hprint : printV ind (JVal.str s) = '"' :: (escStr s.data ++ ['"']) := by
          simp [printV, printStr]
        rw [hprint, List.cons_append]
        simp only [pV]
        rw [skipWs_not_ws '"' _ (by decide)]
        dsimp only
        rw [if_neg (by decide : ('"' : Char) ≠ 'n'), if_neg (by decide : ('"' : Char) ≠ 't'),
          if_neg (by decide : ('"' : Char) ≠ 'f'), if_pos rfl]
        rw [List.append_assoc, List.singleton_append]
        rw [pStrBody_esc s.data f rest hb]
      | arr xs =>
        cases xs with
        | nil =>
          simp [printV, pV, skipWs, List.dropWhile_cons, isWs]
        | cons x xs =>
          have hnE : needElems x xs ≤ f := by
            have : needV (JVal.arr (x :: xs)) = 1 + needElems x xs := by simp [needV]
            omega
          have hw : wfV x = true ∧ wfElems xs = true := by
            have heq : wfV (JVal.arr (x :: xs)) = (wfV x && wfElems xs) := by
              simp [wfV, wfElems]
            rw [heq] at hwf
            simpa [Bool.and_eq_true] using hwf
          have hprint : printV ind (JVal.arr (x :: xs)) =
              '[' :: (printItems (ind + 2) x xs ++ '\n' :: (spaces ind ++ [']'])) := by
            simp [printV]
          rw [hprint, List.cons_append]
          simp only [pV]
          rw [skipWs_not_ws '[' _ (by decide)]
          dsimp only
          rw [if_neg (by decide : ('[' : Char) ≠ 'n'), if_neg (by decide : ('[' : Char) ≠ 't'),
            if_neg (by decide : ('[' : Char) ≠ 'f'), if_neg (by decide : ('[' : Char) ≠ '"'),
            if_pos rfl]
          have hassoc : (printItems (ind + 2) x xs ++ '\n' :: (spaces ind ++ [']'])) ++ rest
              = printItems (ind + 2) x xs ++ '\n' :: (spaces ind ++ (']' :: rest)) := by
            simp [List.append_assoc]
          rw [hassoc]
          obtain ⟨c0, l0, hskip, hc0ws, hc0b, hc0b2⟩ :=
            skipWs_printItems (ind + 2) x xs ('\n' :: (spaces ind ++ (']' :: rest)))
          rw [hskip]
          dsimp only
          rw [if_neg hc0b]
          rw [ihE x xs (ind + 2) ind rest hnE hw.1 hw.2 hrest]
      | obj fs0 =>
        cases fs0 with
        | nil =>
          simp [printV, pV, skipWs, List.dropWhile_cons, isWs]
        | cons fp fs =>
          have hnM : needMems fp fs ≤ f := by
            have : needV (JVal.obj (fp :: fs)) = 1 + needMems fp fs := by simp [needV]
            omega
          have hw : nodupKeys ((fp :: fs).map Prod.fst) = true
              ∧ wfV fp.2 = true ∧ wfMems fs = true := by
            have heq : wfV (JVal.obj (fp :: fs)) =
                (nodupKeys ((fp :: fs).map Prod.fst) && (wfV fp.2 && wfMems fs)) := by
              simp [wfV, wfMems]
            rw [heq] at hwf
            simpa [Bool.and_eq_true, and_assoc] using hwf
          have hprint : printV ind (JVal.obj (fp :: fs)) =
              Char.ofNat 123 ::
                (printFields (ind + 2) fp fs ++ '\n' :: (spaces ind ++ [Char.ofNat 125])) := by
            simp [printV]
          rw [hprint, List.cons_append]
          simp only [pV]
          rw [skipWs_not_ws (Char.ofNat 123) _ (by decide)]
          dsimp only
          rw [if_neg (by decide : (Char.ofNat 123) ≠ 'n'),
            if_neg (by decide : (Char.ofNat 123) ≠ 't'),
            if_neg (by decide : (Char.ofNat 123) ≠ 'f'),
            if_neg (by decide : (Char.ofNat 123) ≠ '"'),
            if_neg (by decide : (Char.ofNat 123) ≠ '['), if_pos rfl]
          have hassoc : (printFields (ind + 2) fp fs ++ '\n' :: (spaces ind ++ [Char.ofNat 125])) ++ rest
              = printFields (ind + 2) fp fs ++ '\n' :: (spaces ind ++ (Char.ofNat 125 :: rest)) := by
            simp [List.append_assoc]
          rw [hassoc]
          rcases fp with ⟨k, v⟩
          rw [skipWs_printFields (ind + 2) k v fs ('\n' :: (spaces ind ++ (Char.ofNat 125 :: rest)))]
          dsimp only
          rw [if_neg (by decide : ('"' : Char) ≠ Char.ofNat 125)]
          rw [ihM (k, v) fs (ind + 2) ind rest hnM hw.2.1 hw.2.2 hrest]
          dsimp only
          rw [dictify_of_nodup _ hw.1]
    · intro x xs ind j rest hn hwx hwxs hrest
      cases xs with
      | nil =>
        have hnV : needV x ≤ f := by
          have : needElems x [] = 1 + needV x := by simp [needElems]
          omega
        have heq : printItems ind x [] ++ '\n' :: (spaces j ++ ']' :: rest)
            = ('\n' :: spaces ind) ++
              (printV ind x ++ ('\n' :: (spaces j ++ ']' :: rest))) := by
          simp [printItems, List.append_assoc]
        simp only [pElems]
        rw [heq, pV_ws f _ _ (nl_spaces_ws ind),
          ihV x ind _ hnV hwx (restHeadOk_cons '\n' _ (by decide))]
        dsimp only
        rw [show ('\n' :: (spaces j ++ (']' :: rest)))
            = ('\n' :: spaces j) ++ (']' :: rest) from by simp]
        rw [skipWs_append_ws _ _ (nl_spaces_ws j), skipWs_not_ws ']' _ (by decide)]
        dsimp only
        rw [if_neg (by decide : (']' : Char) ≠ ','), if_pos rfl]
      | cons y ys =>
        have hnV : needV x ≤ f ∧ needElems y ys ≤ f := by
          have : needElems x (y :: ys) = 1 + max (needV x) (needElems y ys) := by
            simp [needElems]
          constructor <;> omega
        have hw' : wfV y = true ∧ wfElems ys = true := by
          have heq : wfElems (y :: ys) = (wfV y && wfElems ys) := by simp [wfElems]
          rw [heq] at hwxs
          simpa [Bool.and_eq_true] using hwxs
        have heq : printItems ind x (y :: ys) ++ '\n' :: (spaces j ++ ']' :: rest)
            = ('\n' :: spaces ind) ++
              (printV ind x ++ (',' ::
                (printItems ind y ys ++ '\n' :: (spaces j ++ ']' :: rest)))) := by
          simp [printItems, List.append_assoc]
        simp only [pElems]
        rw [heq, pV_ws f _ _ (nl_spaces_ws ind),
          ihV x ind _ hnV.1 hwx (restHeadOk_cons ',' _ (by decide))]
        dsimp only
        rw [skipWs_not_ws ',' _ (by decide)]
        dsimp only
        rw [if_pos rfl]
        rw [ihE y ys ind j rest hnV.2 hw'.1 hw'.2 hrest]
    · intro fp fs ind j rest hn hwv hwfs hrest
      rcases fp with ⟨k, v⟩
      cases fs with
      | nil =>
        have hb : k.length + 1 ≤ f ∧ needV v ≤ f := by
          have : needMems (k, v) [] = 1 + max (k.length + 1) (needV v) := by
            simp [needMems]
          constructor <;> omega
        simp only [pMems]
        rw [skipWs_printFields ind k v [] ('\n' :: (spaces j ++ Char.ofNat 125 :: rest))]
        dsimp only
        rw [if_pos rfl]
        have hkb : k.data.length + 1 ≤ f := by
          have hsl : k.length = k.data.length := rfl
          omega
        rw [pStrBody_esc k.data f _ hkb]
        dsimp only
        rw [skipWs_not_ws ':' _ (by decide)]
        dsimp only
        rw [if_pos rfl]
        rw [show (' ' :: (printV ind v ++ ('\n' :: (spaces j ++ Char.ofNat 125 :: rest))))
            = [' '] ++ (printV ind v ++ ('\n' :: (spaces j ++ Char.ofNat 125 :: rest)))
          from rfl]
        rw [pV_ws f _ _ (by intro c hc; rcases List.mem_singleton.mp hc with rfl; decide),
          ihV v ind _ hb.2 hwv (restHeadOk_cons '\n' _ (by decide))]
        dsimp only
        rw [show ('\n' :: (spaces j ++ (Char.ofNat 125 :: rest)))
            = ('\n' :: spaces j) ++ (Char.ofNat 125 :: rest) from by simp]
        rw [skipWs_append_ws _ _ (nl_spaces_ws j),
          skipWs_not_ws (Char.ofNat 125) _ (by decide)]
        dsimp only
        rw [if_neg (by decide : Char.ofNat 125 ≠ ','), if_pos rfl]
      | cons g gs =>
        have hb : k.length + 1 ≤ f ∧ needV v ≤ f ∧ needMems g gs ≤ f := by
          have : needMems (k, v) (g :: gs)
              = 1 + max (k.length + 1) (max (needV v) (needMems g gs)) := by
            simp [needMems]
          refine ⟨by omega, by omega, by omega⟩
        have hw' : wfV g.2 = true ∧ wfMems gs = true := by
          have heq : wfMems (g :: gs) = (wfV g.2 && wfMems gs) := by simp [wfMems]
          rw [heq] at hwfs
          simpa [Bool.and_eq_true] using hwfs
        simp only [pMems]
        rw [skipWs_printFields ind k v (g :: gs) ('\n' :: (spaces j ++ Char.ofNat 125 :: rest))]
        dsimp only
        rw [if_pos rfl]
        have hkb : k.data.length + 1 ≤ f := by
          have hsl : k.length = k.data.length := rfl
          omega
        rw [pStrBody_esc k.data f _ hkb]
        dsimp only
        rw [skipWs_not_ws ':' _ (by decide)]
        dsimp only
        rw [if_pos rfl]
        rw [show (' ' :: (printV ind v ++ (',' ::
              (printFields ind g gs ++ '\n' :: (spaces j ++ Char.ofNat 125 :: rest)))))
            = [' '] ++ (printV ind v ++ (',' ::
              (printFields ind g gs ++ '\n' :: (spaces j ++ Char.ofNat 125 :: rest))))
          from rfl]
        rw [pV_ws f _ _ (by intro c hc; rcases List.mem_singleton.mp hc with rfl; decide),
          ihV v ind _ hb.2.1 hwv (restHeadOk_cons ',' _ (by decide))]
        dsimp only
        rw [skipWs_not_ws ',' _ (by decide)]
        dsimp only
        rw [if_pos rfl]
        rw [ihM g gs ind j rest hb.2.2 hw'.1 hw'.2 hrest]

theorem spaces_len (n : Nat) : (spaces n).length = n := by
  induction n <;> simp [spaces, *]

theorem escChar_len_ge (c : Char) : 1 ≤ (escChar c).length := by
  unfold escChar
  split_ifs <;> simp

theorem escStr_len_ge : ∀ cs : List Char, cs.length ≤ (escStr cs).length := by
  intro cs
  induction cs with
  | nil => simp [escStr]
  | cons c t ih =>
    have := escChar_len_ge c
    simp only [escStr, List.length_append, List.length_cons]
    omega

theorem jval_sizeOf_pos (v : JVal) : 1 ≤ sizeOf v := by
  cases v <;> simp_arith

theorem need_le_len : ∀ N : Nat,
    (∀ (ind : Nat) (v : JVal), sizeOf v ≤ N → needV v ≤ (printV ind v).length)
    ∧ (∀ (ind : Nat) (x : JVal) (xs : List JVal), sizeOf x + sizeOf xs ≤ N →
        needElems x xs ≤ (printItems ind x xs).length)
    ∧ (∀ (ind : Nat) (fp : String × JVal) (fs : List (String × JVal)),
        sizeOf fp + sizeOf fs ≤ N →
        needMems fp fs ≤ (printFields ind fp fs).length) := by
  intro N
  induction N with
  | zero =>
    refine ⟨?_, ?_, ?_⟩
    · intro ind v h
      exact absurd h (by have := jval_sizeOf_pos v; omega)
    · intro ind x xs h
      exact absurd h (by have := jval_sizeOf_pos x; omega)
    · intro ind fp fs h
      rcases fp with ⟨k, v⟩
      exact absurd h (by simp_arith)
  | succ N ih =>
    obtain ⟨ihV, ihE, ihM⟩ := ih
    refine ⟨?_, ?_, ?_⟩
    · intro ind v hsz
      cases v with
      | null => simp [needV, printV]
      | bool b => cases b <;> simp [needV, printV, boolChars]
      | int n =>
        obtain ⟨c, t, hct, -, -⟩ := intChars_head n
        have : (intChars n).length = t.length + 1 := by rw [hct]; simp
        simp [needV, printV, this]
      | str s =>
        have hge := escStr_len_ge s.data
        have hsl : s.length = s.data.length := rfl
        simp only [needV, printV, printStr, List.length_cons, List.length_append,
          List.length_singleton]
        omega
      | arr xs =>
        cases xs with
        | nil => simp [needV, printV]
        | cons x xs =>
          have hx : sizeOf x + sizeOf xs ≤ N := by
            simp_arith at hsz
            omega
          have hE := ihE (ind + 2) x xs hx
          simp only [needV, printV, List.length_cons, List.length_append, spaces_len,
            List.length_singleton]
          omega
      | obj fs0 =>
        cases fs0 with
        | nil => simp [needV, printV]
        | cons fp fs =>
          have hx : sizeOf fp + sizeOf fs ≤ N := by
            simp_arith at hsz
            omega
          have hM := ihM (ind + 2) fp fs hx
          simp only [needV, printV, List.length_cons, List.length_append, spaces_len,
            List.length_singleton]
          omega
    · intro ind x xs hsz
      cases xs with
      | nil =>
        have hx : sizeOf x ≤ N := by
          simp_arith at hsz
          omega
        have hV := ihV ind x hx
        simp only [needElems, printItems, List.length_cons, List.length_append, spaces_len]
        omega
      | cons y ys =>
        have hx : sizeOf x ≤ N := by
          have h1 := jval_sizeOf_pos y
          simp_arith at hsz
          omega
        have hyys : sizeOf y + sizeOf ys ≤ N := by
          have h1 := jval_sizeOf_pos x
          simp_arith at hsz
          omega
        have hV := ihV ind x hx
        have hE := ihE ind y ys hyys
        simp only [needElems, printItems, List.length_cons, List.length_append, spaces_len]
        omega
    · intro ind fp fs hsz
      rcases fp with ⟨k, v⟩
      have hkl : k.length = k.data.length := rfl
      have hge := escStr_len_ge k.data
      cases fs with
      | nil =>
        have hx : sizeOf v ≤ N := by
          simp_arith at hsz
          omega
        have hV := ihV ind v hx
        simp only [needMems, printFields, printStr, List.length_cons, List.length_append,
          spaces_len, List.length_singleton]
        omega
      | cons g gs =>
        have hx : sizeOf v ≤ N := by
          simp_arith at hsz
          omega
        have hggs : sizeOf g + sizeOf gs ≤ N := by
          have h1 := jval_sizeOf_pos v
          simp_arith at hsz
          omega
        have hV := ihV ind v hx
        have hM := ihM ind g gs hggs
        simp only [needMems, printFields, printStr, List.length_cons, List.length_append,
          spaces_len, List.length_singleton]
        omega

theorem json_round_trip (v : JVal) (h : wfV v = true) :
    json_loads (json_dumps v) = some v := by
  have hlen : (json_dumps v).length = (printV 0 v).length := rfl
  have hneed : needV v ≤ (printV 0 v).length :=
    (need_le_len (sizeOf v)).1 0 v le_rfl
  have hdata : (json_dumps v).data = printV 0 v ++ [] := by
    simp [json_dumps]
  unfold json_loads
  rw [hdata, hlen,
    (parse_print ((printV 0 v).length + 1)).1 v 0 []
      (by omega) h (by intro c hc; simp at hc)]
  simp [skipWs]


/-! ## Claim C1 -/

/-- C1: for a pipe-delimited source table with columns
`("user", "feedback_comments")` and rows `[("STP1", "Good"), ("STP2", " "),
("STP3-02", "Nope")]`, `load_feedback_csv_from_gcs` returns exactly the two
canonical records `[{response_id := 1, response := "Good"},
{response_id := 3, response := "Nope"}]` in that order: the blank-feedback
row is dropped and the suffixed identifier `STP3-02` normalises to `3`. -/
theorem C1_end_to_end_load :
    load_feedback_csv_from_gcs "bucket" "file.csv"
      (some ⟨["user", "feedback_comments"],
        [[some "STP1", some "Good"], [some "STP2", some " "], [some "STP3-02", some "Nope"]]⟩)
      ["user", "feedback_comments"] =
    .ok [{ response_id := 1, response := "Good" }, { response_id := 3, response := "Nope" }] :=
  rfl

/-! ## Claim C10 -/

/-- C10: whenever `column_headers` does not have length 2,
`load_feedback_csv_from_gcs` fails with the header `ValueError` regardless of
the state of storage (in particular the existence check, download and parse
are never consulted: the result is the same for every `blob`); with any
length-2 `column_headers` it proceeds to the storage existence check, so a
missing blob yields `FileNotFoundError`. -/
theorem C10_header_length_check_first :
    ∀ (bucket file : String) (blob : Option Table) (hdrs : List String),
      (hdrs.length ≠ 2 →
        load_feedback_csv_from_gcs bucket file blob hdrs = .error (.valueError headersMsg))
      ∧ (hdrs.length = 2 →
        load_feedback_csv_from_gcs bucket file none hdrs =
          .error (.fileNotFoundError
            s!"The file \x27{file}\x27 does not exist in bucket \x27{bucket}\x27.")) := by
  intro bucket file blob hdrs
  constructor
  · intro h
    rcases hdrs with _ | ⟨a, _ | ⟨b, _ | ⟨c, t⟩⟩⟩
    · rfl
    · rfl
    · exact absurd rfl h
    · rfl
  · intro h
    rcases hdrs with _ | ⟨a, _ | ⟨b, _ | ⟨c, t⟩⟩⟩ <;> simp at h
    rfl

/-- Witness for C10 at concrete inputs: a one-element header list fails with
the header error even though the blob exists, and a two-element header list
reaches the existence check. -/
theorem C10_header_length_check_first_witness :
    ((["only"] : List String).length ≠ 2
      ∧ load_feedback_csv_from_gcs "b" "f"
          (some ⟨["user", "feedback_comments"], [[some "STP1", some "Good"]]⟩) ["only"] =
        .error (.valueError headersMsg))
    ∧ ((["user", "feedback_comments"] : List String).length = 2
      ∧ load_feedback_csv_from_gcs "b" "f" none ["user", "feedback_comments"] =
        .error (.fileNotFoundError "The file \x27f\x27 does not exist in bucket \x27b\x27.")) := by
  constructor
  · exact ⟨by decide,
      (C10_header_length_check_first "b" "f"
        (some ⟨["user", "feedback_comments"], [[some "STP1", some "Good"]]⟩) ["only"]).1
        (by decide)⟩
  · exact ⟨rfl,
      (C10_header_length_check_first "b" "f" none ["user", "feedback_comments"]).2 rfl⟩

/-! ## Claim C5 -/

set_option maxRecDepth 4000 in
/-- C5: with `max_attempts = 3`, a retry-wrapped operation that fails twice
with retryable errors and then succeeds returns the success value after
performing exactly 2 backoff waits, and an operation that fails on all 3
attempts re-raises the last error with no 4th invocation (the invocation
count is 3); the waited delays are `[initial_delay, initial_delay *
backoff_factor]`, hence `[2.0, 4.0]` for `initial_delay = 2.0,
backoff_factor = 2.0`. -/
theorem C5_retry_three_attempts :
    ∀ {ε α : Type} (op : Nat → Except ε α) (retryable : ε → Bool)
      (d f : ℚ) (e1 e2 : ε),
      op 1 = .error e1 → retryable e1 = true →
      op 2 = .error e2 → retryable e2 = true →
      (∀ v : α, op 3 = .ok v →
        retry_with_backoff 3 d f retryable op = (.ok v, 3, [d, d * f]))
      ∧ (∀ e3 : ε, op 3 = .error e3 → retryable e3 = true →
        retry_with_backoff 3 d f retryable op = (.error (.raised e3), 3, [d, d * f])) := by
  intro ε α op retryable d f e1 e2 h1 hr1 h2 hr2
  constructor
  · intro v h3
    simp [retry_with_backoff, retryAux, h1, hr1, h2, hr2, h3]
  · intro e3 h3 hr3
    simp [retry_with_backoff, retryAux, h1, hr1, h2, hr2, h3, hr3]

/-- Witness for C5 at a concrete operation over `String` errors and `Nat`
results, with `initial_delay = 2.0` and `backoff_factor = 2.0`: the delay
sequence is exactly `[2.0, 4.0]`. -/
theorem C5_retry_three_attempts_witness :
    (retry_with_backoff 3 2 2 (fun _ => true)
        (fun k => if k = 1 then .error "e1" else if k = 2 then .error "e2" else .ok 7) =
      (.ok 7, 3, [2, 4]))
    ∧ (retry_with_backoff 3 2 2 (fun _ => true)
        (fun k => if k = 1 then .error "e1" else if k = 2 then .error "e2" else
          .error "e3" : Nat → Except String Nat) =
      (.error (.raised "e3"), 3, [2, 4])) := by
  constructor
  · have h := (C5_retry_three_attempts
      (fun k => if k = 1 then .error "e1" else if k = 2 then .error "e2" else .ok 7)
      (fun _ => true) 2 2 "e1" "e2" rfl rfl rfl rfl).1 7 rfl
    norm_num at h
    exact h
  · have h := (C5_retry_three_attempts
      (fun k => if k = 1 then .error "e1" else if k = 2 then .error "e2" else
        .error "e3" : Nat → Except String Nat)
      (fun _ => true) 2 2 "e1" "e2" rfl rfl rfl rfl).2 "e3" rfl rfl
    norm_num at h
    exact h

/-! ## Claim C6 -/

set_option maxRecDepth 4000 in
/-- C6: at any attempt of a retry-wrapped operation, an exception whose type
is not in the configured retryable set propagates out immediately — no wait
is performed and no further attempt is consumed — and a successful result is
returned immediately with no further attempts; in particular at the first
attempt of `retry_with_backoff` with any positive `max_attempts`. -/
theorem C6_short_circuit :
    ∀ {ε α : Type} (op : Nat → Except ε α) (retryable : ε → Bool)
      (d f : ℚ) (remaining attempts m : Nat),
      (∀ v : α, op (attempts + 1) = .ok v →
        retryAux op retryable f (remaining + 1) attempts d = (.ok v, attempts + 1, []))
      ∧ (∀ e : ε, op (attempts + 1) = .error e → retryable e = false →
        retryAux op retryable f (remaining + 1) attempts d = (.error (.raised e), attempts + 1, []))
      ∧ (∀ v : α, op 1 = .ok v →
        retry_with_backoff (m + 1) d f retryable op = (.ok v, 1, []))
      ∧ (∀ e : ε, op 1 = .error e → retryable e = false →
        retry_with_backoff (m + 1) d f retryable op = (.error (.raised e), 1, [])) := by
  intro ε α op retryable d f remaining attempts m
  refine ⟨?_, ?_, ?_, ?_⟩
  · intro v h
    simp [retryAux, h]
  · intro e h hr
    simp [retryAux, h, hr]
  · intro v h
    simp [retry_with_backoff, retryAux, h]
  · intro e h hr
    simp [retry_with_backoff, retryAux, h, hr]

/-- Witness for C6 at concrete operations: a non-retryable first failure
escapes with one invocation and no waits, and a first-attempt success returns
with one invocation and no waits. -/
theorem C6_short_circuit_witness :
    (retry_with_backoff 3 2 2 (fun _ => false)
        (fun _ => .error "fatal" : Nat → Except String Nat) =
      (.error (.raised "fatal"), 1, []))
    ∧ (retry_with_backoff 3 2 2 (fun _ => true)
        (fun _ => .ok 9 : Nat → Except String Nat) =
      (.ok 9, 1, [])) := by
  constructor
  · exact (C6_short_circuit (fun _ => .error "fatal" : Nat → Except String Nat)
      (fun _ => false) 2 2 0 0 2).2.2.2 "fatal" rfl rfl
  · exact (C6_short_circuit (fun _ => .ok 9 : Nat → Except String Nat)
      (fun _ => true) 2 2 0 0 2).2.2.1 9 rfl

/-! ## Claim C8 -/

/-- C8 counterexample: the same primitive storage not-found failure raised
during the load stage and during the write stage is wrapped, in both cases,
in the *same* error type `GCSOperationError`; the two stages' wrapped errors
have equal error kind, so they are not distinguishable from the error type
alone (only their messages differ). -/
theorem C8_counterexample :
    (run_analysis (some "staging") none (some "output") (.ok ())
        (.error "The file \x27input.csv\x27 does not exist in bucket \x27staging\x27.")
        (.ok ()) (.ok ()) =
      .error (.gcsOperationError
        "Failed to load feedback from GCS: The file \x27input.csv\x27 does not exist in bucket \x27staging\x27."))
    ∧ (run_analysis (some "staging") none (some "output") (.ok ()) (.ok []) (.ok ())
        (.error "The file \x27input.csv\x27 does not exist in bucket \x27staging\x27.") =
      .error (.gcsOperationError
        "Failed to save results to GCS: The file \x27input.csv\x27 does not exist in bucket \x27staging\x27."))
    ∧ StageError.kind (.gcsOperationError
        "Failed to load feedback from GCS: The file \x27input.csv\x27 does not exist in bucket \x27staging\x27.")
      = StageError.kind (.gcsOperationError
        "Failed to save results to GCS: The file \x27input.csv\x27 does not exist in bucket \x27staging\x27.") :=
  ⟨rfl, rfl, rfl⟩

/-- C8 (amended): the orchestrator wraps stage failures as follows — a
primitive failure during the load stage and during the write stage are both
wrapped in `GCSOperationError` (same error kind, distinguished only by the
`"Failed to load feedback from GCS: "` / `"Failed to save results to GCS: "`
message prefixes), while an analysis-stage failure is wrapped in the distinct
error type `ThemeFinderError`; load-stage and write-stage failures are
therefore not distinguishable from the error type alone. -/
theorem C8_stage_error_wrapping :
    ∀ (sb ib ob : Option String) (recs : List CanonicalRecord)
      (ft sv : Except String Unit) (e : String),
      truthy (pyOrElse sb ib) = true → truthy ob = true →
      (run_analysis sb ib ob (.ok ()) (.error e) ft sv =
        .error (.gcsOperationError ("Failed to load feedback from GCS: " ++ e)))
      ∧ (run_analysis sb ib ob (.ok ()) (.ok recs) (.ok ()) (.error e) =
        .error (.gcsOperationError ("Failed to save results to GCS: " ++ e)))
      ∧ (run_analysis sb ib ob (.ok ()) (.ok recs) (.error e) sv =
        .error (.themeFinderError ("ThemeFinder processing failed: " ++ e)))
      ∧ (∀ m1 m2 : String,
          StageError.kind (.gcsOperationError m1) = StageError.kind (.gcsOperationError m2))
      ∧ (∀ m1 m2 : String,
          StageError.kind (.themeFinderError m1) ≠ StageError.kind (.gcsOperationError m2)) := by
  intro sb ib ob recs ft sv e h1 h2
  refine ⟨?_, ?_, ?_, ?_, ?_⟩ <;>
    simp [run_analysis, h1, h2, StageError.kind]

/-- Witness for C8 (amended) at concrete environment values and a concrete
primitive error. -/
theorem C8_stage_error_wrapping_witness :
    truthy (pyOrElse (some "staging") none) = true
    ∧ truthy (some "output") = true
    ∧ run_analysis (some "staging") none (some "output") (.ok ()) (.error "boom")
        (.ok ()) (.ok ()) =
      .error (.gcsOperationError ("Failed to load feedback from GCS: " ++ "boom")) :=
  ⟨rfl, rfl,
    (C8_stage_error_wrapping (some "staging") none (some "output") [] (.ok ()) (.ok ())
      "boom" rfl rfl).1⟩

/-! ## Claim C2 -/

/-- C2: for every raw identifier that, after trimming, decomposes as `STP`
followed by a non-empty digit group and an optional `-<digits>` suffix,
`_normalise_response_id` returns the first digit group parsed as an integer
(the suffix is discarded); for every raw identifier whose trimmed form admits
no such decomposition, it fails with the format `ValueError`. -/
theorem C2_normalise_id :
    ∀ raw : String,
      (∀ ds sfx : List Char,
        (pyStrip raw).data = 'S' :: 'T' :: 'P' :: (ds ++ sfx) →
        ds ≠ [] → (∀ c ∈ ds, c.isDigit = true) →
        (sfx = [] ∨ ∃ ds2, sfx = '-' :: ds2 ∧ ds2 ≠ [] ∧ (∀ c ∈ ds2, c.isDigit = true)) →
        _normalise_response_id raw = .ok (digitsToNat ds : Int))
      ∧ (¬ specIdMatches (pyStrip raw) →
         ∃ msg, _normalise_response_id raw = .error msg) := by
  intro raw
  constructor
  · intro ds sfx hdata hne hdig hsfx
    simp only [_normalise_response_id]
    rw [hdata, idPatternMatch_of_decomp ds sfx hne hdig hsfx]
  · intro hnot
    cases hm : idPatternMatch (pyStrip raw).data with
    | none =>
      exact ⟨s!"Unable to normalise response ID \x27{pyStrip raw}\x27. Expected format \x27STP<digits>\x27 or \x27STP<digits>-<digits>\x27.",
        by simp only [_normalise_response_id]; rw [hm]⟩
    | some ds =>
      exfalso
      apply hnot
      rcases hdata : (pyStrip raw).data with _ | ⟨c1, _ | ⟨c2, _ | ⟨c3, rest⟩⟩⟩ <;>
        rw [hdata] at hm
      · simp [idPatternMatch] at hm
      · simp [idPatternMatch] at hm
      · simp [idPatternMatch] at hm
      · simp only [idPatternMatch] at hm
        split_ifs at hm with hstp hemp
        obtain ⟨h1, h2, h3⟩ := hstp
        subst h1; subst h2; subst h3
        refine ⟨rest.takeWhile Char.isDigit, rest.dropWhile Char.isDigit,
          by rw [List.takeWhile_append_dropWhile]; exact hdata, hemp, ?_, ?_⟩
        · intro c hc
          exact List.mem_takeWhile_imp hc
        · cases hd : rest.dropWhile Char.isDigit with
          | nil => exact Or.inl rfl
          | cons c ds2 =>
            rw [hd] at hm
            dsimp only at hm
            split_ifs at hm with hdash hemp2 hall
            refine Or.inr ⟨ds2, by rw [hdash], hemp2, ?_⟩
            exact fun c hc => List.all_eq_true.mp hall c hc

/-- Witness for C2 at the concrete identifiers named by the spec:
`STP00861-01 ↦ 861`, `STP42 ↦ 42`, and failures for `"ABC123"`, `""` and
`"STP"`. -/
theorem C2_normalise_id_witness :
    (_normalise_response_id "STP00861-01" = .ok 861)
    ∧ (_normalise_response_id "STP42" = .ok 42)
    ∧ (∃ msg, _normalise_response_id "ABC123" = .error msg)
    ∧ (∃ msg, _normalise_response_id "" = .error msg)
    ∧ (∃ msg, _normalise_response_id "STP" = .error msg) := by
  refine ⟨?_, ?_, ?_, ?_, ?_⟩
  · have h := (C2_normalise_id "STP00861-01").1 "00861".data "-01".data
      (by decide) (by decide) (by decide)
      (Or.inr ⟨"01".data, by decide, by decide, by decide⟩)
    exact h.trans (by decide)
  · have h := (C2_normalise_id "STP42").1 "42".data [] (by decide) (by decide) (by decide)
      (Or.inl rfl)
    exact h.trans (by decide)
  · refine (C2_normalise_id "ABC123").2 ?_
    rintro ⟨ds, sfx, h, -, -, -⟩
    simp [pyStrip, stripL, pyIsSpace] at h
  · refine (C2_normalise_id "").2 ?_
    rintro ⟨ds, sfx, h, -, -, -⟩
    simp [pyStrip, stripL, pyIsSpace] at h
  · refine (C2_normalise_id "STP").2 ?_
    rintro ⟨ds, sfx, h, hne, -, -⟩
    simp [pyStrip, stripL, pyIsSpace] at h
    exact hne h.1

/-! ## Claim C3 -/

/-- C3: `_filter_empty_feedback` keeps exactly the rows whose text-column
value is present and, after conversion to string and trimming, is neither
empty nor case-insensitively `"nan"` (`specKeepRow`); the surviving rows are
`List.filter` of the input rows, so their relative order is the input order,
and the result is a new table (a sublist of the input rows with the same
header) while the input is untouched — the embedding is a pure function of
the input table. -/
theorem C3_filter_semantics :
    ∀ (df : Table) (text_col : String),
      (_filter_empty_feedback df text_col).columns = df.columns
      ∧ (_filter_empty_feedback df text_col).rows =
          df.rows.filter (specKeepRow df.columns text_col)
      ∧ List.Sublist (_filter_empty_feedback df text_col).rows df.rows := by
  intro df text_col
  refine ⟨rfl, filter_rows_eq df text_col, ?_⟩
  rw [filter_rows_eq]
  exact List.filter_sublist df.rows

/-! ## Claim C4 -/

/-- C4: with a well-formed two-column header, `load_feedback_csv_from_gcs`
fails with the schema `ValueError` (naming the missing columns) whenever the
id column or the text column is absent from the parsed header, and fails with
the empty-input `ValueError` whenever zero rows survive the feedback filter —
the empty check happens after filtering and before any identifier
normalisation, so an all-filtered table produces the empty-input error and
never a format error. -/
theorem C4_schema_and_empty_errors :
    ∀ (bucket file id_col text_col : String) (df : Table),
      (¬ (id_col ∈ df.columns ∧ text_col ∈ df.columns) →
        load_feedback_csv_from_gcs bucket file (some df) [id_col, text_col] =
          .error (.valueError ("Missing required columns in CSV: " ++
            String.intercalate ", "
              ([id_col, text_col].filter (fun c => !(df.columns.contains c))))))
      ∧ (id_col ∈ df.columns → text_col ∈ df.columns →
         (_filter_empty_feedback df text_col).rows = [] →
          load_feedback_csv_from_gcs bucket file (some df) [id_col, text_col] =
            .error (.valueError emptyMsg)) := by
  intro bucket file id_col text_col df
  constructor
  · intro h
    rcases not_and_or.mp h with hid | htext
    · simp [load_feedback_csv_from_gcs, List.filter, hid]
    · by_cases hid2 : id_col ∈ df.columns <;>
        simp [load_feedback_csv_from_gcs, List.filter, htext, hid2]
  · intro h1 h2 hrows
    simp [load_feedback_csv_from_gcs, List.filter, h1, h2, hrows]

/-- Witness for C4 at concrete tables: a header without the feedback column
gives the schema error, and a table whose only row has blank feedback gives
the empty-input error (not a format error), even though its id cell is
well-formed. -/
theorem C4_schema_and_empty_errors_witness :
    (¬ ("user" ∈ (["user", "other"] : List String)
        ∧ "feedback_comments" ∈ (["user", "other"] : List String))
      ∧ load_feedback_csv_from_gcs "b" "f"
          (some ⟨["user", "other"], [[some "STP1", some "x"]]⟩)
          ["user", "feedback_comments"] =
        .error (.valueError "Missing required columns in CSV: feedback_comments"))
    ∧ ((_filter_empty_feedback
          ⟨["user", "feedback_comments"], [[some "STP1", some " "]]⟩
          "feedback_comments").rows = []
      ∧ load_feedback_csv_from_gcs "b" "f"
          (some ⟨["user", "feedback_comments"], [[some "STP1", some " "]]⟩)
          ["user", "feedback_comments"] =
        .error (.valueError emptyMsg)) := by
  constructor
  · refine ⟨by decide, ?_⟩
    have h := (C4_schema_and_empty_errors "b" "f" "user" "feedback_comments"
      ⟨["user", "other"], [[some "STP1", some "x"]]⟩).1 (by decide)
    exact h.trans (by decide)
  · refine ⟨rfl, ?_⟩
    exact (C4_schema_and_empty_errors "b" "f" "user" "feedback_comments"
      ⟨["user", "feedback_comments"], [[some "STP1", some " "]]⟩).2
      (by decide) (by decide) rfl

/-! ## Claim C9 -/

/-- C9 counterexample: the claim requires every `response_id` of a successful
load to be a *positive* integer, but the raw identifier `STP0` matches the
pattern and normalises to `0`, which is not positive. -/
theorem C9_counterexample :
    load_feedback_csv_from_gcs "bucket" "file.csv"
      (some ⟨["user", "feedback_comments"], [[some "STP0", some "Good"]]⟩)
      ["user", "feedback_comments"] =
      .ok [{ response_id := 0, response := "Good" }]
    ∧ ¬ (0 : Int) <
        ({ response_id := 0, response := "Good" } : CanonicalRecord).response_id :=
  ⟨rfl, by decide⟩

/-- C9 (amended): every `CanonicalRecord` produced by a successful
`load_feedback_csv_from_gcs` satisfies: `response_id` is a *non-negative*
integer derived deterministically from a raw identifier via the pattern
normaliser (some raw string normalises to exactly this id), and `response` is
non-empty after trimming and is not the case-insensitive literal string
`"nan"` (neither after trimming nor as a whole). -/
theorem C9_record_invariants :
    ∀ (bucket file : String) (blob : Option Table) (hdrs : List String)
      (recs : List CanonicalRecord),
      load_feedback_csv_from_gcs bucket file blob hdrs = .ok recs →
      ∀ r ∈ recs,
        0 ≤ r.response_id
        ∧ (∃ raw, _normalise_response_id raw = .ok r.response_id)
        ∧ pyStrip r.response ≠ ""
        ∧ pyLower (pyStrip r.response) ≠ "nan"
        ∧ pyLower r.response ≠ "nan" := by
  intro bucket file blob hdrs recs hload r hr
  rcases hdrs with _ | ⟨id_col, _ | ⟨text_col, _ | ⟨c, t⟩⟩⟩
  · exact Except.noConfusion hload
  · exact Except.noConfusion hload
  rotate_left
  · exact Except.noConfusion hload
  cases blob with
  | none => exact Except.noConfusion hload
  | some df =>
    simp only [load_feedback_csv_from_gcs] at hload
    split_ifs at hload with hmiss hempty
    split at hload
    · exact Except.noConfusion hload
    · next ids hmapM =>
      cases hload
      obtain ⟨row, hrowmem, hfok, hresp⟩ :=
        zip_mapM_mem _ _ _ _ hmapM r hr
      have hcols : (_filter_empty_feedback df text_col).columns = df.columns := rfl
      rw [hcols] at hresp
      rw [filter_rows_eq] at hrowmem
      obtain ⟨-, hkeep⟩ := List.mem_filter.mp hrowmem
      cases hcell : getCell df.columns row text_col with
      | none => rw [specKeepRow, hcell] at hkeep; exact Bool.noConfusion hkeep
      | some s =>
        rw [specKeepRow, hcell] at hkeep
        simp only [Bool.not_eq_true', Bool.or_eq_false_iff, beq_eq_false_iff_ne] at hkeep
        obtain ⟨hs1, hs2⟩ := hkeep
        rw [hcell] at hresp
        have hresp' : r.response = s := hresp
        refine ⟨normalise_nonneg _ _ hfok, ⟨_, hfok⟩, ?_, ?_, ?_⟩
        · rw [hresp']; exact hs1
        · rw [hresp']; exact hs2
        · intro heq
          have hfix := pyLower_nan_strip _ heq
          rw [hresp'] at heq hfix
          exact hs2 (by rw [hfix]; exact heq)

/-- Witness for C9 (amended) at the C1 table: the record
`{response_id := 1, response := "Good"}` of the successful load satisfies all
the invariants. -/
theorem C9_record_invariants_witness :
    0 ≤ ({ response_id := 1, response := "Good" } : CanonicalRecord).response_id
    ∧ (∃ raw, _normalise_response_id raw =
        .ok ({ response_id := 1, response := "Good" } : CanonicalRecord).response_id)
    ∧ pyStrip ({ response_id := 1, response := "Good" } : CanonicalRecord).response ≠ ""
    ∧ pyLower (pyStrip ({ response_id := 1, response := "Good" } : CanonicalRecord).response) ≠ "nan"
    ∧ pyLower ({ response_id := 1, response := "Good" } : CanonicalRecord).response ≠ "nan" :=
  C9_record_invariants "bucket" "file.csv"
    (some ⟨["user", "feedback_comments"],
      [[some "STP1", some "Good"], [some "STP2", some " "], [some "STP3-02", some "Nope"]]⟩)
    ["user", "feedback_comments"]
    [{ response_id := 1, response := "Good" }, { response_id := 3, response := "Nope" }]
    rfl { response_id := 1, response := "Good" } (by decide)

/-! ## Claim C7 -/

/-- C7: `themefinder_output_to_serialisable` is idempotent on
already-serialized input — applying it to a mapping whose values are plain
JSON-safe structures returns the mapping unchanged, key order included — and
encoding any such mapping to JSON text (`json.dumps(..., indent=2,
ensure_ascii=False)`) and decoding it back (`json.loads`) reproduces the same
mapping: key order, string values and tabular row order are all preserved
(the hypothesis `wfV` states that object keys are pairwise distinct, as in
any structure obtained from Python dicts). -/
theorem C7_serialise_idempotent_roundtrip :
    ∀ m : List (String × JVal),
      (themefinder_output_to_serialisable (m.map (fun kv => (kv.1, PyValue.json kv.2))) = m)
      ∧ (wfV (JVal.obj m) = true →
        json_loads (json_dumps (JVal.obj m)) = some (JVal.obj m)) := by
  intro m
  constructor
  · induction m with
    | nil => rfl
    | cons kv rest ih =>
      simp only [themefinder_output_to_serialisable, List.map_cons] at ih ⊢
      rw [ih]
  · intro hwf
    exact json_round_trip (JVal.obj m) hwf

/-- Witness for C7 at a concrete ThemeFinder-like result: a themes table of
row-mappings, a status string (with a non-ASCII character and an escape), and
an integer count survive serialisation unchanged and round-trip through the
JSON text form. -/
theorem C7_serialise_idempotent_roundtrip_witness :
    wfV (JVal.obj
      [("themes", JVal.arr
          [JVal.obj [("topic_id", JVal.int 1), ("label", JVal.str "Accessibilité \"A\"")],
           JVal.obj [("topic_id", JVal.int 2), ("label", JVal.str "Time taken")]]),
       ("status", JVal.str "done"),
       ("count", JVal.int 42)]) = true
    ∧ json_loads (json_dumps (JVal.obj
        [("themes", JVal.arr
            [JVal.obj [("topic_id", JVal.int 1), ("label", JVal.str "Accessibilité \"A\"")],
             JVal.obj [("topic_id", JVal.int 2), ("label", JVal.str "Time taken")]]),
         ("status", JVal.str "done"),
         ("count", JVal.int 42)])) =
      some (JVal.obj
        [("themes", JVal.arr
            [JVal.obj [("topic_id", JVal.int 1), ("label", JVal.str "Accessibilité \"A\"")],
             JVal.obj [("topic_id", JVal.int 2), ("label", JVal.str "Time taken")]]),
         ("status", JVal.str "done"),
         ("count", JVal.int 42)])
    ∧ themefinder_output_to_serialisable
        ([("themes", JVal.arr
            [JVal.obj [("topic_id", JVal.int 1), ("label", JVal.str "Accessibilité \"A\"")],
             JVal.obj [("topic_id", JVal.int 2), ("label", JVal.str "Time taken")]]),
          ("status", JVal.str "done"),
          ("count", JVal.int 42)].map (fun kv => (kv.1, PyValue.json kv.2))) =
        [("themes", JVal.arr
            [JVal.obj [("topic_id", JVal.int 1), ("label", JVal.str "Accessibilité \"A\"")],
             JVal.obj [("topic_id", JVal.int 2), ("label", JVal.str "Time taken")]]),
         ("status", JVal.str "done"),
         ("count", JVal.int 42)] := by
  refine ⟨by decide, ?_, ?_⟩
  · exact (C7_serialise_idempotent_roundtrip _).2 (by decide)
  · exact (C7_serialise_idempotent_roundtrip _).1

end SurveyAssistThemes
